import Mathlib

/-
Verification development for the ai_arena match engine, replay engine,
subprocess-agent transport and tournament scheduler.

Shallow embedding of src/src/ai_arena/{engine.py, replay.py, tournament.py,
agents/subprocess_agent.py, games/tictactoe.py, game.py, json_types.py}.
Python dictionaries, lists and scalars (json_types.JSONValue) are embedded as
the inductive type JSONValue below.  Wall-clock timing is abstracted by an
explicit clock argument (the measured milliseconds never influence control
flow in the source).  Printing and blocking on stdin (the prime-turn pause)
are recorded as an event list in the engine outcome.  Exceptions raised by
agent calls are modelled by the AgentCall.raise_ constructor; the engine code
contains no handler for them, so they surface as EngineOutcome.exn.
-/

/-- Embedding of json_types.JSONValue: scalar, sequence or string-keyed
mapping.  Python bool is a subtype of int; the embedding keeps the two
constructors separate and models the numeric coercions explicitly where the
source relies on them. -/
inductive JSONValue where
  | null
  | bool (b : Bool)
  | int (n : Int)
  | str (s : String)
  | arr (xs : List JSONValue)
  | obj (fields : List (String × JSONValue))
  deriving Repr

mutual
def decEqJV : (a b : JSONValue) → Decidable (a = b)
  | .null, .null => isTrue rfl
  | .bool a, .bool b =>
    match decEq a b with
    | isTrue h => isTrue (by rw [h])
    | isFalse h => isFalse (fun hh => h (JSONValue.bool.inj hh))
  | .int a, .int b =>
    match decEq a b with
    | isTrue h => isTrue (by rw [h])
    | isFalse h => isFalse (fun hh => h (JSONValue.int.inj hh))
  | .str a, .str b =>
    match decEq a b with
    | isTrue h => isTrue (by rw [h])
    | isFalse h => isFalse (fun hh => h (JSONValue.str.inj hh))
  | .arr a, .arr b =>
    match decEqJVList a b with
    | isTrue h => isTrue (by rw [h])
    | isFalse h => isFalse (fun hh => h (JSONValue.arr.inj hh))
  | .obj a, .obj b =>
    match decEqJVFields a b with
    | isTrue h => isTrue (by rw [h])
    | isFalse h => isFalse (fun hh => h (JSONValue.obj.inj hh))
  | .null, .bool _ => isFalse nofun
  | .null, .int _ => isFalse nofun
  | .null, .str _ => isFalse nofun
  | .null, .arr _ => isFalse nofun
  | .null, .obj _ => isFalse nofun
  | .bool _, .null => isFalse nofun
  | .bool _, .int _ => isFalse nofun
  | .bool _, .str _ => isFalse nofun
  | .bool _, .arr _ => isFalse nofun
  | .bool _, .obj _ => isFalse nofun
  | .int _, .null => isFalse nofun
  | .int _, .bool _ => isFalse nofun
  | .int _, .str _ => isFalse nofun
  | .int _, .arr _ => isFalse nofun
  | .int _, .obj _ => isFalse nofun
  | .str _, .null => isFalse nofun
  | .str _, .bool _ => isFalse nofun
  | .str _, .int _ => isFalse nofun
  | .str _, .arr _ => isFalse nofun
  | .str _, .obj _ => isFalse nofun
  | .arr _, .null => isFalse nofun
  | .arr _, .bool _ => isFalse nofun
  | .arr _, .int _ => isFalse nofun
  | .arr _, .str _ => isFalse nofun
  | .arr _, .obj _ => isFalse nofun
  | .obj _, .null => isFalse nofun
  | .obj _, .bool _ => isFalse nofun
  | .obj _, .int _ => isFalse nofun
  | .obj _, .str _ => isFalse nofun
  | .obj _, .arr _ => isFalse nofun

def decEqJVList : (a b : List JSONValue) → Decidable (a = b)
  | [], [] => isTrue rfl
  | [], _ :: _ => isFalse nofun
  | _ :: _, [] => isFalse nofun
  | x :: xs, y :: ys =>
    match decEqJV x y, decEqJVList xs ys with
    | isTrue h1, isTrue h2 => isTrue (by rw [h1, h2])
    | isFalse h1, _ => isFalse (fun hh => h1 (by cases hh; rfl))
    | _, isFalse h2 => isFalse (fun hh => h2 (by cases hh; rfl))

def decEqJVFields : (a b : List (String × JSONValue)) → Decidable (a = b)
  | [], [] => isTrue rfl
  | [], _ :: _ => isFalse nofun
  | _ :: _, [] => isFalse nofun
  | (k1, v1) :: xs, (k2, v2) :: ys =>
    match decEq k1 k2, decEqJV v1 v2, decEqJVFields xs ys with
    | isTrue h1, isTrue h2, isTrue h3 => isTrue (by rw [h1, h2, h3])
    | isFalse h1, _, _ => isFalse (fun hh => h1 (by cases hh; rfl))
    | _, isFalse h2, _ => isFalse (fun hh => h2 (by cases hh; rfl))
    | _, _, isFalse h3 => isFalse (fun hh => h3 (by cases hh; rfl))
end

instance : DecidableEq JSONValue := decEqJV

/-- Lookup of a key in an embedded JSON object.  json.loads keeps the last
binding when a textual object repeats a key, and Python dict lookup then
returns that binding, so the lookup takes the last matching entry. -/
def jget (fields : List (String × JSONValue)) (k : String) : Option JSONValue :=
  ((fields.filter (fun e => e.1 = k)).getLast?).map (fun e => e.2)

/-- PlayerId from game.py: an int that the engine keeps in {0, 1}. -/
abbrev PlayerId := Nat

/-- Embedding of game.Terminal. -/
structure Terminal where
  is_terminal : Bool
  winner : Option PlayerId
  reason : String
  deriving DecidableEq, Repr

/-- Embedding of the game.Game protocol: a capability record of pure
operations over opaque JSON states and moves. -/
structure Game where
  name : String
  initial_state : JSONValue
  legal_moves : JSONValue → PlayerId → List JSONValue
  apply_move : JSONValue → PlayerId → JSONValue → JSONValue
  terminal : JSONValue → Terminal
  render : JSONValue → String

/-- Embedding of engine.MoveRecord.  The source stores ms as a float; the
measured value never influences control flow, so it is carried as an integer
number of milliseconds supplied by the clock argument of play_match. -/
structure MoveRecord where
  turn : Nat
  player : PlayerId
  move : JSONValue
  ms : Int
  note : Option String
  deriving DecidableEq, Repr

/-- Embedding of engine.MatchResult. -/
structure MatchResult where
  game : String
  winner : Option PlayerId
  reason : String
  turns : Nat
  move_history : List MoveRecord
  deriving DecidableEq, Repr

/-- Result of one call to agent.select_move: either a returned move or a
raised exception (RuntimeError, TimeoutError, ValueError, ...) carrying its
message.  engine.play_match has no handler, so a raise propagates. -/
inductive AgentCall where
  | move (m : JSONValue)
  | raise_ (err : String)
  deriving DecidableEq, Repr

/-- Embedding of the agent capability: name plus select_move(game, state,
player, legal_moves). -/
structure Agent where
  name : String
  select_move : Game → JSONValue → PlayerId → List JSONValue → AgentCall

/-- Which return statement of play_match produced the MatchResult: the
rules-terminal exit, the no_legal_moves forfeit, the illegal_move forfeit,
or the fall-through after the turn loop. -/
inductive ExitKind where
  | rulesTerminal
  | noLegalMoves
  | illegalMove
  | maxTurns
  deriving DecidableEq, Repr

/-- Observable outcome of play_match: either a MatchResult together with the
final engine state, the exit site, the turn counter at exit and the list of
turns on which the prime-turn pause prompt fired, or a propagated agent
exception (in which case the local history of the Python frame is lost). -/
inductive EngineOutcome where
  | ok (result : MatchResult) (finalState : JSONValue) (exit : ExitKind)
      (exitTurn : Nat) (pauses : List Nat)
  | exn (err : String) (pauses : List Nat)
  deriving DecidableEq, Repr

/-- Embedding of engine._is_prime: trial division stepping 6 after checking
2 and 3.  The while loop increases i by 6 each pass, so n passes of fuel are
more than enough; the fuel never runs out for the arguments used. -/
def primeLoop (n : Nat) : Nat → Nat → Bool
  | _, 0 => true
  | i, fuel + 1 =>
    if i * i ≤ n then
      if n % i = 0 || n % (i + 2) = 0 then false
      else primeLoop n (i + 6) fuel
    else true

def _is_prime (n : Nat) : Bool :=
  if n ≤ 1 then false
  else if n ≤ 3 then true
  else if n % 2 = 0 || n % 3 = 0 then false
  else primeLoop n 5 n

/-- Embedding of the turn loop of engine.play_match (lines 66 to 126).  The
fuel argument counts the turns remaining in range(1, max_turns + 1); turn,
state, player, history and pauses are the Python local variables, with
pauses recording the turns on which the prime-pause prompt blocked.  Each
branch mirrors one exit of the source loop in order: rules-terminal exit,
no_legal_moves forfeit, the select_move call (a raise propagates, ending the
frame), the illegal_move forfeit, and the applied move followed by the
optional prime pause and the player swap. -/
def playLoop (g : Game) (a0 a1 : Agent) (clk : Nat → Int) (pp : Bool) (mt : Nat) :
    Nat → Nat → JSONValue → PlayerId → List MoveRecord → List Nat → EngineOutcome
  | 0, turn, state, _player, history, pauses =>
    .ok ⟨g.name, none, "max_turns", mt, history⟩ state .maxTurns turn pauses
  | fuel + 1, turn, state, player, history, pauses =>
    let t := g.terminal state
    if t.is_terminal then
      .ok ⟨g.name, t.winner, t.reason, turn - 1, history⟩ state .rulesTerminal turn pauses
    else
      let agent := if player = 0 then a0 else a1
      let legal := g.legal_moves state player
      if legal = [] then
        .ok ⟨g.name, some (1 - player), "no_legal_moves", turn - 1, history⟩ state
          .noLegalMoves turn pauses
      else
        match agent.select_move g state player legal with
        | .raise_ e => .exn e pauses
        | .move m =>
          let ms := clk turn
          if m ∈ legal then
            let state2 := g.apply_move state player m
            let history2 := history ++ [⟨turn, player, m, ms, none⟩]
            let pauses2 := if pp && _is_prime turn then pauses ++ [turn] else pauses
            playLoop g a0 a1 clk pp mt fuel (turn + 1) state2 (1 - player) history2 pauses2
          else
            .ok ⟨g.name, some (1 - player), "illegal_move", turn,
                history ++ [⟨turn, player, m, ms, some "illegal_move"⟩]⟩ state
              .illegalMove turn pauses

/-- Embedding of engine.play_match.  The source defaults are
max_turns = 10000 and prime_pause = false; both are passed explicitly here.
Log writing (engine._write_log) is file output and is not part of the
returned value, so it is not modelled. -/
def play_match (g : Game) (agent0 agent1 : Agent) (clk : Nat → Int)
    (max_turns : Nat) (prime_pause : Bool) : EngineOutcome :=
  playLoop g agent0 agent1 clk prime_pause max_turns max_turns 1
    g.initial_state 0 [] []

/-- Numeric reading of a Python value where the source uses an isinstance
int check: Python bool is a subtype of int (True compares equal to 1 and
False to 0), floats and everything else fail the check. -/
def pyIntValue : JSONValue → Option Int
  | .int n => some n
  | .bool b => some (if b then 1 else 0)
  | _ => none

/-- Embedding of games/tictactoe.py _winner: scan the eight lines. -/
def ticLines : List (Nat × Nat × Nat) :=
  [(0, 1, 2), (3, 4, 5), (6, 7, 8), (0, 3, 6), (1, 4, 7), (2, 5, 8), (0, 4, 8), (2, 4, 6)]

def ticWinner (board : List Int) : Option PlayerId :=
  (ticLines.filterMap (fun l =>
    let v := board.getD l.1 0
    if v ≠ 0 ∧ v = board.getD l.2.1 0 ∧ v = board.getD l.2.2 0 then
      some (if v = 1 then (0 : PlayerId) else 1)
    else none)).head?

/-- Reading of state["board"] as a list of ints.  Reachable TicTacToe states
always have this shape; on any other shape the source would raise, which the
total embedding maps to the empty board. -/
def ticBoard (state : JSONValue) : List Int :=
  match state with
  | .obj fields =>
    match jget fields "board" with
    | some (.arr xs) => xs.map (fun v => match v with | .int n => n | _ => 0)
    | _ => []
  | _ => []

def boardToState (board : List Int) : JSONValue :=
  .obj [("board", .arr (board.map (fun n => .int n)))]

/-- Enumerate the indices of empty cells, mirroring the enumerate-based list
comprehension in legal_moves. -/
def emptyCellsFrom : List Int → Nat → List JSONValue
  | [], _ => []
  | v :: rest, i =>
    (if v = 0 then [JSONValue.int i] else []) ++ emptyCellsFrom rest (i + 1)

/-- Embedding of games/tictactoe.py TicTacToe.  apply_move validates the
move exactly as the source does; in the branches where the source raises
ValueError the embedding returns the state unchanged (the engine only calls
apply_move on moves it has just validated against legal_moves, so those
branches are unreachable from play_match). -/
def TicTacToe : Game where
  name := "tictactoe"
  initial_state := boardToState (List.replicate 9 0)
  legal_moves := fun state _player => emptyCellsFrom (ticBoard state) 0
  apply_move := fun state player move =>
    match pyIntValue move with
    | none => state
    | some mv =>
      let board := ticBoard state
      if 0 ≤ mv ∧ mv < 9 ∧ board.getD mv.toNat 0 = 0 then
        boardToState (board.set mv.toNat (if player = 0 then 1 else 2))
      else state
  terminal := fun state =>
    let board := ticBoard state
    match ticWinner board with
    | some w => ⟨true, some w, "win"⟩
    | none =>
      if board.all (fun v => v ≠ 0) then ⟨true, none, "draw"⟩
      else ⟨false, none, ""⟩
  render := fun state =>
    let glyphs := (ticBoard state).map (fun v => if v = 1 then "X" else if v = 2 then "O" else ".")
    String.intercalate "\n"
      [String.intercalate " " (glyphs.take 3),
       String.intercalate " " ((glyphs.drop 3).take 3),
       String.intercalate " " ((glyphs.drop 6).take 3)]

/-- Embedding of replay.ReplayMove: the parsed form of one serialized
MoveRecord dict (replay.py lines 39 to 48 parse turn, player, move, ms and
note from the dict; engine-produced dicts always parse). -/
structure ReplayMove where
  turn : Nat
  player : PlayerId
  move : JSONValue
  ms : Option Int
  note : Option String
  deriving DecidableEq, Repr

/-- Embedding of replay.Replay. -/
structure Replay where
  game : String
  moves : List ReplayMove
  states : List JSONValue
  terminal : Terminal
  deriving DecidableEq, Repr

/-- Conversion from an engine MoveRecord to its parsed replay form, the
composition of dataclasses.asdict serialization with the parsing loop of
replay_from_move_history. -/
def toReplayMove (r : MoveRecord) : ReplayMove :=
  ⟨r.turn, r.player, r.move, some r.ms, r.note⟩

/-- States appended by the reconstruction loop of replay_from_move_history
(replay.py lines 50 to 59): an empty note applies the move; a non-empty note
appends the state unchanged and stops. -/
def replayWalk (g : Game) : JSONValue → List ReplayMove → List JSONValue
  | _, [] => []
  | s, m :: rest =>
    match m.note with
    | none =>
      let s2 := g.apply_move s m.player m.move
      s2 :: replayWalk g s2 rest
    | some _ => [s]

/-- Embedding of replay.replay_from_move_history on parsed records. -/
def replay_from_move_history (g : Game) (mh : List ReplayMove) : Replay :=
  let rest := replayWalk g g.initial_state mh
  { game := g.name
    moves := mh
    states := g.initial_state :: rest
    terminal := g.terminal (rest.getLastD g.initial_state) }

/-- Fields of the log payload that replay_from_log_payload reads: the result
object with its reason, winner and (already parsed) move_history.  The
source reads them with dict.get defaults from arbitrary JSON, so reason and
winner are arbitrary JSON values here. -/
structure LogPayloadResult where
  reason : JSONValue
  winner : JSONValue
  move_history : List ReplayMove
  deriving DecidableEq, Repr

structure LogPayload where
  result : LogPayloadResult
  deriving DecidableEq, Repr

/-- Winner normalization of replay.py lines 84 to 90: None stays None; an
isinstance int check (satisfied by Python bools) combined with membership in
(0, 1) accepts 0, 1, True and False; anything else becomes None. -/
def pyWinner01 (winner : JSONValue) : Option PlayerId :=
  match winner with
  | .null => none
  | v =>
    match pyIntValue v with
    | some n => if n = 0 ∨ n = 1 then some n.toNat else none
    | none => none

/-- String reading of the reason field: the source requires
isinstance(reason, str) and truthiness (non-empty). -/
def pyNonEmptyStr : JSONValue → Option String
  | .str s => if s = "" then none else some s
  | _ => none

/-- Embedding of replay.replay_from_log_payload (lines 65 to 93).  The
move_history field is already parsed, so the list isinstance guard of the
source always passes here. -/
def replay_from_log_payload (g : Game) (payload : LogPayload) : Replay :=
  let rep := replay_from_move_history g payload.result.move_history
  if rep.terminal.is_terminal then rep
  else
    match pyNonEmptyStr payload.result.reason with
    | some s =>
      { game := rep.game, moves := rep.moves, states := rep.states,
        terminal := ⟨true, pyWinner01 payload.result.winner, s⟩ }
    | none => rep

/-- One line read from the stdout of the bot child process, as classified by
SubprocessAgent.select_move: blank after strip, not valid JSON, or a parsed
JSON value. -/
inductive BotLine where
  | blank
  | nonJson (raw : String)
  | json (v : JSONValue)
  deriving DecidableEq, Repr

/-- Embedding of the reading loop of SubprocessAgent.select_move
(subprocess_agent.py lines 81 to 109) over the sequence of lines the child
writes: an exhausted stream models readline returning the empty string
(closed stdout); blank lines, non-JSON lines, non-dict values and dicts
whose type is not the string move are skipped; the first move-typed dict
returns its move field, or raises if that field is missing.  The deadline
bookkeeping of the source only decides when to poll again and is not part
of the value computed from the lines. -/
def botReadLoop : List BotLine → Except String JSONValue
  | [] => .error "bot stdout closed"
  | .blank :: rest => botReadLoop rest
  | .nonJson _ :: rest => botReadLoop rest
  | .json v :: rest =>
    match v with
    | .obj fields =>
      if jget fields "type" = some (.str "move") then
        match jget fields "move" with
        | some m => .ok m
        | none => .error "bot move message missing move"
      else botReadLoop rest
    | _ => botReadLoop rest

/-- Boolean test for the lines the reading loop silently skips. -/
def lineSkipped : BotLine → Bool
  | .blank => true
  | .nonJson _ => true
  | .json (.obj fields) => !(jget fields "type" == some (.str "move"))
  | .json _ => true

/-- Agent backed by the subprocess transport: for each turn, respond gives
the lines the child writes to stdout in reply to the serialized turn
message, and select_move returns the value botReadLoop extracts, raising
(RuntimeError or ValueError of the transport) when the loop errors. -/
def mkSubprocessAgent (respond : JSONValue → PlayerId → List JSONValue → List BotLine) : Agent where
  name := "subprocess"
  select_move := fun _g state player legal =>
    match botReadLoop (respond state player legal) with
    | .ok m => .move m
    | .error e => .raise_ e

/-- Embedding of tournament.Competitor. -/
structure Competitor where
  id : String
  home_game : String
  agent : String
  deriving DecidableEq, Repr

/-- Embedding of tournament.MatchSummary. -/
structure MatchSummary where
  context : String
  game : String
  p0 : String
  p1 : String
  winner : Option String
  reason : String
  turns : Nat
  deriving DecidableEq, Repr

/-- Per-competitor scoreboard row (the inner dict of the scoreboard). -/
structure Row where
  wins : Nat
  losses : Nat
  draws : Nat
  points : Nat
  deriving DecidableEq, Repr

/-- Scoreboard: insertion-ordered string-keyed dict of rows, embedded as an
association list whose keys are unique whenever competitor ids are. -/
abbrev Scoreboard := List (String × Row)

def sbKeys (sb : Scoreboard) : List String := sb.map (fun e => e.1)

/-- Dict read sb[k]: the row of the first entry carrying the key (keys are
unique whenever competitor ids are).  Reachable reads always hit a present
key; an absent key, which would raise KeyError in the source, yields the
zero row. -/
def sbGet : Scoreboard → String → Row
  | [], _ => ⟨0, 0, 0, 0⟩
  | e :: t, k => if e.1 = k then e.2 else sbGet t k

/-- Dict write sb[k] = v, keeping insertion order. -/
def sbSet (sb : Scoreboard) (k : String) (v : Row) : Scoreboard :=
  sb.map (fun e => if e.1 = k then (k, v) else e)

/-- Embedding of tournament._scoreboard_init. -/
def _scoreboard_init (competitors : List Competitor) : Scoreboard :=
  competitors.map (fun c => (c.id, ⟨0, 0, 0, 0⟩))

/-- Embedding of tournament._apply_result (lines 94 to 106).  The source
increments the draws of both seats then the points of both seats; the two
field increments of one key are merged into a single row write, which gives
the same dict. -/
def _apply_result (sb : Scoreboard) (p0 p1 : String) (winner : Option String) : Scoreboard :=
  match winner with
  | none =>
    let r0 := sbGet sb p0
    let sb1 := sbSet sb p0 { r0 with draws := r0.draws + 1, points := r0.points + 1 }
    let r1 := sbGet sb1 p1
    sbSet sb1 p1 { r1 with draws := r1.draws + 1, points := r1.points + 1 }
  | some w =>
    let loser := if w = p0 then p1 else p0
    let rw := sbGet sb w
    let sb1 := sbSet sb w { rw with wins := rw.wins + 1 }
    let rl := sbGet sb1 loser
    let sb2 := sbSet sb1 loser { rl with losses := rl.losses + 1 }
    let rw2 := sbGet sb2 w
    sbSet sb2 w { rw2 with points := rw2.points + 3 }

/-- Embedding of tournament._pairings: all pairs with the first component
earlier in the list. -/
def _pairings : List Competitor → List (Competitor × Competitor)
  | [] => []
  | x :: xs => xs.map (fun y => (x, y)) ++ _pairings xs

/-- One scheduled match of the round robin: the scenario context, the game
spec it is played on, the two paired competitors and the seat assignment. -/
structure Sched where
  context : String
  gameSpec : String
  a : Competitor
  b : Competitor
  p0_id : String
  p1_id : String
  deriving DecidableEq, Repr

/-- Python compares strings lexicographically by Unicode code point, a
missing character comparing smaller.  The builtin min and max used for the
neutral seat are embedded directly over this ordering (min returns its
first argument on ties, exactly as the builtin does). -/
def pyCharsLt : List Char → List Char → Bool
  | [], [] => false
  | [], _ :: _ => true
  | _ :: _, [] => false
  | c :: cs, d :: ds =>
    if c.toNat < d.toNat then true
    else if c.toNat = d.toNat then pyCharsLt cs ds
    else false

def pyStrMin (a b : String) : String := if pyCharsLt b.data a.data then b else a

def pyStrMax (a b : String) : String := if pyCharsLt b.data a.data then a else b

/-- The three scenarios of one pairing (tournament.py lines 133 to 137):
context, game spec, nominal first seat. -/
def scenariosFor (neutral : String) (a b : Competitor) : List (String × String × String) :=
  [("home:" ++ a.id, a.home_game, a.id),
   ("home:" ++ b.id, b.home_game, b.id),
   ("neutral", neutral, pyStrMin a.id b.id)]

/-- Seat assignments for one scenario and round (tournament.py lines 141 to
143): the nominal first seat with its partner, and the swapped seats when
swap_starts is set. -/
def seatPairs (p0d : String) (a b : Competitor) (swap : Bool) : List (String × String) :=
  let partner := if p0d = b.id then a.id else b.id
  if swap then [(p0d, partner), (partner, p0d)] else [(p0d, partner)]

/-- The full deterministic match enumeration of run_tournament: pairs, then
scenarios, then rounds, then seats, in the loop nesting order of the
source. -/
def scheduleMatches (competitors : List Competitor) (neutral : String)
    (rounds : Nat) (swap : Bool) : List Sched :=
  (_pairings competitors).flatMap (fun ab =>
    (scenariosFor neutral ab.1 ab.2).flatMap (fun sc =>
      (List.range rounds).flatMap (fun _r =>
        (seatPairs sc.2.2 ab.1 ab.2 swap).map (fun seat =>
          ⟨sc.1, sc.2.1, ab.1, ab.2, seat.1, seat.2⟩))))

/-- Embedding of tournament.TournamentResult.  The wall-clock fields
started_ts_ms and duration_ms are readings of time.time and are not
modelled. -/
structure TournamentResult where
  matches' : List MatchSummary
  scoreboard : Scoreboard
  deriving DecidableEq, Repr

/-- The winner id of one match summary (tournament.py line 170): None for a
draw, the seat id selected by the 0-or-1 winner otherwise (any winner value
other than 0 selects seat 1, as the source if-else does). -/
def winnerIdOf (res : MatchResult) (p0_id p1_id : String) : Option String :=
  match res.winner with
  | none => none
  | some w => some (if w = 0 then p0_id else p1_id)

/-- The match loop body of run_tournament (lines 139 to 182), folded over
the scheduled matches: resolve the seated competitors, play the match with
the source defaults (max_turns 10000), and on success record the summary
and apply the scoring; a propagated agent exception aborts the tournament
after the finally block closes the agents (closing is resource cleanup and
has no effect on the returned value). -/
def runMatches (gameOf : String → Game) (agentOf : String → Agent) (clk : Nat → Int)
    (pp : Bool) :
    List Sched → Scoreboard → List MatchSummary →
    Except String (List MatchSummary × Scoreboard)
  | [], sb, acc => .ok (acc, sb)
  | s :: rest, sb, acc =>
    let p0c := if s.a.id = s.p0_id then s.a else s.b
    let p1c := if s.a.id = s.p0_id then s.b else s.a
    match play_match (gameOf s.gameSpec) (agentOf p0c.agent) (agentOf p1c.agent) clk 10000 pp with
    | .exn e _ => .error e
    | .ok res _ _ _ _ =>
      let winner_id : Option String := winnerIdOf res s.p0_id s.p1_id
      let summ : MatchSummary :=
        ⟨s.context, res.game, s.p0_id, s.p1_id, winner_id, res.reason, res.turns⟩
      runMatches gameOf agentOf clk pp rest
        (_apply_result sb s.p0_id s.p1_id winner_id) (acc ++ [summ])

/-- Embedding of tournament.run_tournament.  Game and agent construction
through _game_factory and _agent_factory is abstracted by the gameOf and
agentOf maps from spec strings to instances (a fresh instance per match in
the source; instances here are values, so freshness is automatic). -/
def run_tournament (gameOf : String → Game) (agentOf : String → Agent) (clk : Nat → Int)
    (competitors : List Competitor) (neutral_game : String) (rounds : Nat)
    (swap_starts prime_pause : Bool) : Except String TournamentResult :=
  match runMatches gameOf agentOf clk prime_pause
      (scheduleMatches competitors neutral_game rounds swap_starts)
      (_scoreboard_init competitors) [] with
  | .error e => .error e
  | .ok (ms, sb) => .ok ⟨ms, sb⟩

/-
Support definitions and lemmas for the engine proofs.
-/

/-- Fold a list of move records over apply_move, the state trajectory of the
engine and of replay. -/
def applyFoldR (g : Game) (s : JSONValue) (rs : List MoveRecord) : JSONValue :=
  rs.foldl (fun st r => g.apply_move st r.player r.move) s

def applyFoldRM (g : Game) (s : JSONValue) (ms : List ReplayMove) : JSONValue :=
  ms.foldl (fun st m => g.apply_move st m.player m.move) s

/-- The records whose move was applied to the state (empty note). -/
def cleanRecs (rs : List MoveRecord) : List MoveRecord :=
  rs.filter (fun r => r.note.isNone)

/-- The turns on which the prime pause fires for a given applied history. -/
def pausesOf (pp : Bool) (rs : List MoveRecord) : List Nat :=
  (rs.map (fun r => r.turn)).filter (fun t => pp && _is_prime t)

theorem cleanRecs_of_clean {rs : List MoveRecord} (h : ∀ r ∈ rs, r.note = none) :
    cleanRecs rs = rs := by
  unfold cleanRecs
  exact List.filter_eq_self.mpr (fun r hr => by simp [h r hr])

theorem cleanRecs_append_noted {rs : List MoveRecord} {r : MoveRecord} {x : String}
    (h : r.note = some x) : cleanRecs (rs ++ [r]) = cleanRecs rs := by
  unfold cleanRecs
  simp [List.filter_append, h]

theorem pausesOf_append (pp : Bool) (rs : List MoveRecord) (r : MoveRecord) :
    pausesOf pp (rs ++ [r]) =
      pausesOf pp rs ++ (if pp && _is_prime r.turn then [r.turn] else []) := by
  unfold pausesOf
  rw [List.map_append, List.filter_append]
  simp only [List.map_cons, List.map_nil, List.filter]
  split <;> rename_i hcond <;> simp [hcond]

theorem applyFoldR_append (g : Game) (s : JSONValue) (rs : List MoveRecord) (r : MoveRecord) :
    applyFoldR g s (rs ++ [r]) = g.apply_move (applyFoldR g s rs) r.player r.move := by
  unfold applyFoldR
  rw [List.foldl_append]
  rfl

theorem mem_of_mem_dropLast {α : Type _} {a : α} {l : List α} (h : a ∈ l.dropLast) : a ∈ l := by
  have hp := List.dropLast_prefix l
  exact hp.subset h

/-- Facts established about every MatchResult the loop returns: general
bookkeeping plus the facts specific to each exit site. -/
structure OkFacts (g : Game) (pp : Bool) (mt : Nat) (res : MatchResult) (fs : JSONValue)
    (ek : ExitKind) (et : Nat) (ps : List Nat) : Prop where
  game_eq : res.game = g.name
  turns_eq : res.turns = res.move_history.length
  early_clean : ∀ r ∈ res.move_history.dropLast, r.note = none
  final_state : fs = applyFoldR g g.initial_state (cleanRecs res.move_history)
  pauses_eq : ps = pausesOf pp (cleanRecs res.move_history)
  rules_facts : ek = ExitKind.rulesTerminal →
    res.turns = et - 1 ∧ (∀ r ∈ res.move_history, r.note = none) ∧
    (g.terminal fs).is_terminal = true ∧ res.winner = (g.terminal fs).winner ∧
    res.reason = (g.terminal fs).reason
  nolegal_facts : ek = ExitKind.noLegalMoves →
    res.turns = et - 1 ∧ (∀ r ∈ res.move_history, r.note = none) ∧
    res.reason = "no_legal_moves" ∧ (g.terminal fs).is_terminal = false
  illegal_facts : ek = ExitKind.illegalMove →
    res.turns = et ∧ res.reason = "illegal_move" ∧ (g.terminal fs).is_terminal = false ∧
    ∃ rs r, res.move_history = rs ++ [r] ∧ (∀ x ∈ rs, x.note = none) ∧
      r.note = some "illegal_move" ∧ r.turn = et
  max_facts : ek = ExitKind.maxTurns →
    res.turns = mt ∧ res.winner = none ∧ res.reason = "max_turns" ∧
    (∀ r ∈ res.move_history, r.note = none)

def LoopSpec (g : Game) (pp : Bool) (mt : Nat) : EngineOutcome → Prop
  | .ok res fs ek et ps => OkFacts g pp mt res fs ek et ps
  | .exn _ _ => True

/-- Master invariant lemma for the turn loop: starting from a consistent
loop configuration, the outcome satisfies OkFacts. -/
theorem playLoop_spec (g : Game) (a0 a1 : Agent) (clk : Nat → Int) (pp : Bool) (mt : Nat) :
    ∀ fuel turn state player history pauses,
      (∀ r ∈ history, r.note = none) →
      state = applyFoldR g g.initial_state history →
      turn = history.length + 1 →
      turn + fuel = mt + 1 →
      pauses = pausesOf pp history →
      LoopSpec g pp mt (playLoop g a0 a1 clk pp mt fuel turn state player history pauses) := by
  intro fuel
  induction fuel with
  | zero =>
    intro turn state player history pauses hclean hstate hturn hfuel hpauses
    simp only [playLoop, LoopSpec]
    have hlen : mt = history.length := by omega
    refine ⟨rfl, by simpa using hlen, ?_, ?_, ?_, ?_, ?_, ?_, ?_⟩
    · exact fun r hr => hclean r (mem_of_mem_dropLast hr)
    · rw [cleanRecs_of_clean hclean]; exact hstate
    · rw [cleanRecs_of_clean hclean]; exact hpauses
    · exact fun h => nomatch h
    · exact fun h => nomatch h
    · exact fun h => nomatch h
    · exact fun _ => ⟨rfl, rfl, rfl, hclean⟩
  | succ n ih =>
    intro turn state player history pauses hclean hstate hturn hfuel hpauses
    simp only [playLoop]
    split
    · -- rules-terminal exit
      rename_i hterm
      simp only [LoopSpec]
      refine ⟨rfl, by simp; omega, ?_, ?_, ?_, ?_, ?_, ?_, ?_⟩
      · exact fun r hr => hclean r (mem_of_mem_dropLast hr)
      · rw [cleanRecs_of_clean hclean]; exact hstate
      · rw [cleanRecs_of_clean hclean]; exact hpauses
      · exact fun _ => ⟨rfl, hclean, hterm, rfl, rfl⟩
      · exact fun h => nomatch h
      · exact fun h => nomatch h
      · exact fun h => nomatch h
    · rename_i hterm
      split
      · -- no_legal_moves forfeit
        rename_i hlegal
        simp only [LoopSpec]
        refine ⟨rfl, by simp; omega, ?_, ?_, ?_, ?_, ?_, ?_, ?_⟩
        · exact fun r hr => hclean r (mem_of_mem_dropLast hr)
        · rw [cleanRecs_of_clean hclean]; exact hstate
        · rw [cleanRecs_of_clean hclean]; exact hpauses
        · exact fun h => nomatch h
        · exact fun _ => ⟨rfl, hclean, rfl, by simpa using hterm⟩
        · exact fun h => nomatch h
        · exact fun h => nomatch h
      · rename_i hlegal
        split
        · -- raised exception propagates
          simp only [LoopSpec]
        · -- a move came back
          rename_i m hmove
          split
          · -- applied move: recurse
            rename_i hmem
            apply ih
            · intro r hr
              rcases List.mem_append.mp hr with h | h
              · exact hclean r h
              · simp at h; subst h; rfl
            · rw [applyFoldR_append, ← hstate]
            · simp; omega
            · omega
            · rw [pausesOf_append]
              split <;> rename_i hcond <;> simp [hcond, hpauses]
          · -- illegal_move forfeit
            rename_i hmem
            simp only [LoopSpec]
            refine ⟨rfl, by simp; omega, ?_, ?_, ?_, ?_, ?_, ?_, ?_⟩
            · intro r hr
              rw [List.dropLast_concat] at hr
              exact hclean r hr
            · rw [cleanRecs_append_noted rfl, cleanRecs_of_clean hclean]; exact hstate
            · rw [cleanRecs_append_noted rfl, cleanRecs_of_clean hclean]; exact hpauses
            · exact fun h => nomatch h
            · exact fun h => nomatch h
            · exact fun _ => ⟨rfl, rfl, by simpa using hterm,
                history, ⟨turn, player, m, clk turn, some "illegal_move"⟩, rfl, hclean, rfl, rfl⟩
            · exact fun h => nomatch h

/-- The master lemma at the entry configuration of play_match. -/
theorem play_match_spec (g : Game) (a0 a1 : Agent) (clk : Nat → Int) (mt : Nat) (pp : Bool)
    (res : MatchResult) (fs : JSONValue) (ek : ExitKind) (et : Nat) (ps : List Nat)
    (h : play_match g a0 a1 clk mt pp = .ok res fs ek et ps) :
    OkFacts g pp mt res fs ek et ps := by
  have hs := playLoop_spec g a0 a1 clk pp mt mt 1 g.initial_state 0 [] []
    (by simp) (by simp [applyFoldR]) (by simp) (by omega) (by simp [pausesOf])
  unfold play_match at h
  rw [h] at hs
  simpa [LoopSpec] using hs

theorem toReplayMove_note (r : MoveRecord) : (toReplayMove r).note = r.note := rfl

theorem applyFoldRM_map (g : Game) (s : JSONValue) (rs : List MoveRecord) :
    applyFoldRM g s (rs.map toReplayMove) = applyFoldR g s rs := by
  unfold applyFoldRM applyFoldR
  rw [List.foldl_map]
  rfl

theorem replayWalk_clean (g : Game) :
    ∀ (ms : List ReplayMove) (s : JSONValue), (∀ m ∈ ms, m.note = none) →
      (replayWalk g s ms).length = ms.length ∧
      (replayWalk g s ms).getLastD s = applyFoldRM g s ms := by
  intro ms
  induction ms with
  | nil =>
    intro s _
    simp [replayWalk, applyFoldRM]
  | cons m rest ih =>
    intro s h
    have hm : m.note = none := h m (by simp)
    have hrest : ∀ x ∈ rest, x.note = none := fun x hx => h x (by simp [hx])
    simp only [replayWalk, hm]
    refine ⟨by simp [(ih _ hrest).1], ?_⟩
    rw [List.getLastD_cons, (ih (g.apply_move s m.player m.move) hrest).2]
    rfl

theorem replayWalk_noted (g : Game) :
    ∀ (ms : List ReplayMove) (s : JSONValue) (m' : ReplayMove) (x : String),
      (∀ m ∈ ms, m.note = none) → m'.note = some x →
      replayWalk g s (ms ++ [m']) = replayWalk g s ms ++ [applyFoldRM g s ms] := by
  intro ms
  induction ms with
  | nil =>
    intro s m' x _ hx
    simp [replayWalk, hx, applyFoldRM]
  | cons m rest ih =>
    intro s m' x h hx
    have hm : m.note = none := h m (by simp)
    have hrest : ∀ a ∈ rest, a.note = none := fun a ha => h a (by simp [ha])
    simp only [List.cons_append, replayWalk, hm, List.append_eq]
    rw [ih _ m' x hrest hx]
    rfl

theorem getLastD_concat {α : Type _} (l : List α) (a : α) (d : α) :
    (l ++ [a]).getLastD d = a := by
  induction l generalizing d with
  | nil => rfl
  | cons b t ih => rw [List.cons_append, List.getLastD_cons]; exact ih b

theorem getLast?_cons_eq {α : Type _} (a : α) (l : List α) :
    (a :: l).getLast? = some (l.getLastD a) := by
  induction l generalizing a with
  | nil => rfl
  | cons b t ih => rw [List.getLastD_cons, ← ih b]; rfl

/-- Replay of an all-applied history: one reconstructed state per record
plus the initial one, ending at the fold of the applied moves. -/
theorem replay_of_clean (g : Game) (mh : List MoveRecord)
    (h : ∀ r ∈ mh, r.note = none) :
    (replay_from_move_history g (mh.map toReplayMove)).states.getLast? =
      some (applyFoldR g g.initial_state mh) ∧
    (replay_from_move_history g (mh.map toReplayMove)).states.length = mh.length + 1 ∧
    (replay_from_move_history g (mh.map toReplayMove)).terminal =
      g.terminal (applyFoldR g g.initial_state mh) := by
  have hmm : ∀ m ∈ mh.map toReplayMove, m.note = none := by
    intro m hm
    rcases List.mem_map.mp hm with ⟨r, hr, rfl⟩
    rw [toReplayMove_note]
    exact h r hr
  have hw := replayWalk_clean g (mh.map toReplayMove) g.initial_state hmm
  unfold replay_from_move_history
  simp only [getLast?_cons_eq, List.length_cons]
  rw [hw.2, hw.1, applyFoldRM_map]
  simp

/-- Replay of a history whose last record is a forfeit note: the trajectory
repeats the pre-forfeit state once and stops. -/
theorem replay_of_noted (g : Game) (rs : List MoveRecord) (r : MoveRecord) (x : String)
    (hc : ∀ a ∈ rs, a.note = none) (hr : r.note = some x) :
    (replay_from_move_history g ((rs ++ [r]).map toReplayMove)).states.getLast? =
      some (applyFoldR g g.initial_state rs) ∧
    (replay_from_move_history g ((rs ++ [r]).map toReplayMove)).states.length = rs.length + 2 ∧
    (replay_from_move_history g ((rs ++ [r]).map toReplayMove)).terminal =
      g.terminal (applyFoldR g g.initial_state rs) := by
  have hmm : ∀ m ∈ rs.map toReplayMove, m.note = none := by
    intro m hm
    rcases List.mem_map.mp hm with ⟨a, ha, rfl⟩
    rw [toReplayMove_note]
    exact hc a ha
  have hrn : (toReplayMove r).note = some x := by rw [toReplayMove_note]; exact hr
  have hw := replayWalk_noted g (rs.map toReplayMove) g.initial_state (toReplayMove r) x hmm hrn
  have hlen := (replayWalk_clean g (rs.map toReplayMove) g.initial_state hmm).1
  unfold replay_from_move_history
  simp only [List.map_append, List.map_cons, List.map_nil, getLast?_cons_eq, List.length_cons]
  rw [hw, getLastD_concat, applyFoldRM_map]
  refine ⟨rfl, ?_, rfl⟩
  simp [hlen]

theorem getLastD_mem {α : Type _} (l : List α) (d : α) : l.getLastD d ∈ d :: l := by
  induction l generalizing d with
  | nil => exact List.mem_singleton.mpr rfl
  | cons b t ih =>
    rw [List.getLastD_cons]
    rcases List.mem_cons.mp (ih b) with h1 | h1
    · exact List.mem_cons.mpr (Or.inr (List.mem_cons.mpr (Or.inl h1)))
    · exact List.mem_cons.mpr (Or.inr (List.mem_cons.mpr (Or.inr h1)))

theorem mem_of_getLast?_eq {α : Type _} {l : List α} {a : α} (h : l.getLast? = some a) :
    a ∈ l := by
  cases l with
  | nil => simp at h
  | cons b t =>
    rw [getLast?_cons_eq] at h
    have := getLastD_mem t b
    rwa [Option.some_inj.mp h] at this

/-
Agent fixtures.  These are the concrete inputs the repository test suite
uses (tests/test_engine.py and tests/test_subprocess_agent.py); the claims
below are instantiated on them.
-/

/-- Fixture from tests/test_engine.py: always selects legal_moves[0]. -/
def firstLegalAgent : Agent where
  name := "first"
  select_move := fun _g _s _p legal => .move (legal.headD .null)

/-- Fixture IllegalAgent from tests/test_engine.py: always returns 999. -/
def illegalAgent : Agent where
  name := "illegal"
  select_move := fun _g _s _p _legal => .move (.int 999)

/-- Fixture ExplodingAgent from tests/test_engine.py: raises
RuntimeError("kaboom") on every call. -/
def explodingAgent : Agent where
  name := "boom"
  select_move := fun _g _s _p _legal => .raise_ "kaboom"

/-- Bot behavior from tests/test_subprocess_agent.py wired through the
transport model: the child answers each turn message with one move line
echoing legal_moves[0]. -/
def echoBot : Agent :=
  mkSubprocessAgent (fun _state _player legal =>
    [.json (.obj [("type", .str "move"), ("move", legal.headD .null)])])

/-- Projections of an engine outcome, for stating concrete facts. -/
def outcomeResult? : EngineOutcome → Option MatchResult
  | .ok res _ _ _ _ => some res
  | .exn _ _ => none

def outcomeFinalState? : EngineOutcome → Option JSONValue
  | .ok _ fs _ _ _ => some fs
  | .exn _ _ => none

def outcomePauses : EngineOutcome → List Nat
  | .ok _ _ _ _ ps => ps
  | .exn _ ps => ps

/-- The illegal-move forfeit run of tests/test_engine.py, as concrete data:
result, final state and history of play_match(TicTacToe, IllegalAgent,
FirstLegalAgent). -/
def mhIllegal : List MoveRecord := [⟨1, 0, .int 999, 0, some "illegal_move"⟩]

def resIllegal : MatchResult := ⟨"tictactoe", some 1, "illegal_move", 1, mhIllegal⟩

/-- The seven-move first-legal trace: X takes cells 0, 2, 4, 6 and O takes
1, 3, 5; the move applied on turn 7 completes the 2-4-6 diagonal. -/
def mhSeven : List MoveRecord :=
  [⟨1, 0, .int 0, 0, none⟩, ⟨2, 1, .int 1, 0, none⟩, ⟨3, 0, .int 2, 0, none⟩,
   ⟨4, 1, .int 3, 0, none⟩, ⟨5, 0, .int 4, 0, none⟩, ⟨6, 1, .int 5, 0, none⟩,
   ⟨7, 0, .int 6, 0, none⟩]

def resSeven : MatchResult := ⟨"tictactoe", none, "max_turns", 7, mhSeven⟩

def boardSeven : JSONValue := boardToState [1, 2, 1, 2, 1, 2, 1, 0, 0]

/-- C1: the claim says play_match catches a select_move exception, appends
an agent_error MoveRecord and returns a forfeit MatchResult.  The source has
no handler around the call (engine.py lines 94 to 96), so the exception
propagates to the caller: on the exact input of
tests/test_engine.py test_agent_error_forfeits the outcome is the raised
RuntimeError, not a MatchResult.  The repository test expects the forfeit,
so the code contradicts its own test suite. -/
theorem claim_C1_agent_exception_propagates :
    play_match TicTacToe explodingAgent firstLegalAgent (fun _ => 0) 10000 false =
      EngineOutcome.exn "kaboom" [] := by decide

/-- C3: turns equals the number of MoveRecords on every return of
play_match; a rules-terminal exit at turn t reports t - 1, an illegal_move
forfeit at turn t reports t with the offending record last, a
no_legal_moves forfeit at turn t reports t - 1, and the turn-cap exit
reports max_turns.  The agent_error and timeout forfeits of the claim have
no code path (the exception propagates, see C1), so their clause is
vacuously satisfied. -/
theorem claim_C3_turn_accounting (g : Game) (a0 a1 : Agent) (clk : Nat → Int)
    (mt : Nat) (pp : Bool) (res : MatchResult) (fs : JSONValue) (ek : ExitKind)
    (et : Nat) (ps : List Nat)
    (h : play_match g a0 a1 clk mt pp = .ok res fs ek et ps) :
    res.turns = res.move_history.length ∧
    (ek = ExitKind.rulesTerminal → res.turns = et - 1) ∧
    (ek = ExitKind.illegalMove → res.turns = et ∧
      ∃ rs r, res.move_history = rs ++ [r] ∧ r.note = some "illegal_move" ∧ r.turn = et) ∧
    (ek = ExitKind.noLegalMoves → res.turns = et - 1) ∧
    (ek = ExitKind.maxTurns → res.turns = mt) := by
  obtain ⟨_, htl, _, _, _, hrf, hnlf, hif, hmf⟩ :=
    play_match_spec g a0 a1 clk mt pp res fs ek et ps h
  refine ⟨htl, fun hk => (hrf hk).1, fun hk => ?_, fun hk => (hnlf hk).1, fun hk => (hmf hk).1⟩
  obtain ⟨ht, _, _, rs, r, hdec, _, hnote, hturn⟩ := hif hk
  exact ⟨ht, rs, r, hdec, hnote, hturn⟩

/-- Witness for C3 on the illegal-move forfeit run of the test suite. -/
theorem claim_C3_witness :
    resIllegal.turns = resIllegal.move_history.length ∧ resIllegal.turns = 1 := by
  have hc := claim_C3_turn_accounting TicTacToe illegalAgent firstLegalAgent (fun _ => 0)
    10000 false resIllegal (boardToState (List.replicate 9 0)) ExitKind.illegalMove 1 []
    (by decide)
  exact ⟨hc.1, (hc.2.2.1 rfl).1⟩

/-- C4: in every MatchResult of play_match, all records except possibly the
last have an empty note; when the last record carries a note, the match
reason equals it; and the final engine state is the fold of exactly the
empty-note records over apply_move. -/
theorem claim_C4_forfeit_terminality (g : Game) (a0 a1 : Agent) (clk : Nat → Int)
    (mt : Nat) (pp : Bool) (res : MatchResult) (fs : JSONValue) (ek : ExitKind)
    (et : Nat) (ps : List Nat)
    (h : play_match g a0 a1 clk mt pp = .ok res fs ek et ps) :
    (∀ r ∈ res.move_history.dropLast, r.note = none) ∧
    (∀ r nt, res.move_history.getLast? = some r → r.note = some nt → res.reason = nt) ∧
    fs = applyFoldR g g.initial_state (cleanRecs res.move_history) := by
  obtain ⟨_, _, hec, hfs, _, hrf, hnlf, hif, hmf⟩ :=
    play_match_spec g a0 a1 clk mt pp res fs ek et ps h
  refine ⟨hec, ?_, hfs⟩
  intro r nt hlast hnote
  have hcleancase : (∀ x ∈ res.move_history, x.note = none) → res.reason = nt := by
    intro hclean
    have hm := mem_of_getLast?_eq hlast
    rw [hclean r hm] at hnote
    exact nomatch hnote
  cases ek with
  | rulesTerminal => exact hcleancase (hrf rfl).2.1
  | noLegalMoves => exact hcleancase (hnlf rfl).2.1
  | maxTurns => exact hcleancase (hmf rfl).2.2.2
  | illegalMove =>
    obtain ⟨_, hreason, _, rs, r2, hdec, _, hnote2, _⟩ := hif rfl
    rw [hdec, List.getLast?_concat] at hlast
    have hrr : r2 = r := Option.some_inj.mp hlast
    rw [hrr] at hnote2
    rw [hnote2] at hnote
    rw [hreason, Option.some_inj.mp hnote]

/-- Witness for C4: the reason of the illegal-move forfeit equals the note
of its final record. -/
theorem claim_C4_witness : resIllegal.reason = "illegal_move" := by
  have hc := claim_C4_forfeit_terminality TicTacToe illegalAgent firstLegalAgent (fun _ => 0)
    10000 false resIllegal (boardToState (List.replicate 9 0)) ExitKind.illegalMove 1 []
    (by decide)
  exact hc.2.1 ⟨1, 0, .int 999, 0, some "illegal_move"⟩ "illegal_move" (by decide) (by decide)

/-- C2: replaying the move_history of any play_match result reconstructs
turns + 1 states whose last is exactly the final engine state, and returns
the terminal verdict the game rules assign to that state; for a
rules-terminal match this verdict coincides with the MatchResult verdict
(for forfeit matches the engine-level verdict is restored at the payload
level, see C5). -/
theorem claim_C2_trajectory_purity (g : Game) (a0 a1 : Agent) (clk : Nat → Int)
    (mt : Nat) (pp : Bool) (res : MatchResult) (fs : JSONValue) (ek : ExitKind)
    (et : Nat) (ps : List Nat)
    (h : play_match g a0 a1 clk mt pp = .ok res fs ek et ps) :
    (replay_from_move_history g (res.move_history.map toReplayMove)).states.getLast? = some fs ∧
    (replay_from_move_history g (res.move_history.map toReplayMove)).states.length = res.turns + 1 ∧
    (replay_from_move_history g (res.move_history.map toReplayMove)).terminal = g.terminal fs ∧
    (ek = ExitKind.rulesTerminal →
      (replay_from_move_history g (res.move_history.map toReplayMove)).terminal =
        ⟨true, res.winner, res.reason⟩) := by
  obtain ⟨_, htl, _, hfs, _, hrf, hnlf, hif, hmf⟩ :=
    play_match_spec g a0 a1 clk mt pp res fs ek et ps h
  have hcleancase :
      (∀ x ∈ res.move_history, x.note = none) →
      (replay_from_move_history g (res.move_history.map toReplayMove)).states.getLast? = some fs ∧
      (replay_from_move_history g (res.move_history.map toReplayMove)).states.length = res.turns + 1 ∧
      (replay_from_move_history g (res.move_history.map toReplayMove)).terminal = g.terminal fs := by
    intro hclean
    rw [cleanRecs_of_clean hclean] at hfs
    have hr := replay_of_clean g res.move_history hclean
    rw [← hfs] at hr
    exact ⟨hr.1, by rw [hr.2.1, htl], hr.2.2⟩
  cases ek with
  | rulesTerminal =>
    obtain ⟨_, hclean, hti, htw, htr⟩ := hrf rfl
    obtain ⟨h1, h2, h3⟩ := hcleancase hclean
    refine ⟨h1, h2, h3, fun _ => ?_⟩
    rw [h3]
    have hsplit : g.terminal fs =
        ⟨(g.terminal fs).is_terminal, (g.terminal fs).winner, (g.terminal fs).reason⟩ := rfl
    rw [hsplit, hti, ← htw, ← htr]
  | noLegalMoves =>
    obtain ⟨h1, h2, h3⟩ := hcleancase (hnlf rfl).2.1
    exact ⟨h1, h2, h3, fun hk => nomatch hk⟩
  | maxTurns =>
    obtain ⟨h1, h2, h3⟩ := hcleancase (hmf rfl).2.2.2
    exact ⟨h1, h2, h3, fun hk => nomatch hk⟩
  | illegalMove =>
    obtain ⟨_, _, _, rs, r, hdec, hcrs, hnote, _⟩ := hif rfl
    rw [hdec, cleanRecs_append_noted hnote, cleanRecs_of_clean hcrs] at hfs
    have hr := replay_of_noted g rs r "illegal_move" hcrs hnote
    rw [← hfs] at hr
    have hlen : res.turns = rs.length + 1 := by rw [htl, hdec]; simp
    rw [hdec]
    exact ⟨hr.1, by rw [hr.2.1, hlen], hr.2.2, fun hk => nomatch hk⟩

/-- Witness for C2 on the illegal-move forfeit run. -/
theorem claim_C2_witness :
    (replay_from_move_history TicTacToe (resIllegal.move_history.map toReplayMove)).states.getLast? =
      some (boardToState (List.replicate 9 0)) ∧
    (replay_from_move_history TicTacToe (resIllegal.move_history.map toReplayMove)).states.length =
      resIllegal.turns + 1 ∧
    (replay_from_move_history TicTacToe (resIllegal.move_history.map toReplayMove)).terminal =
      TicTacToe.terminal (boardToState (List.replicate 9 0)) := by
  have hc := claim_C2_trajectory_purity TicTacToe illegalAgent firstLegalAgent (fun _ => 0)
    10000 false resIllegal (boardToState (List.replicate 9 0)) ExitKind.illegalMove 1 []
    (by decide)
  exact ⟨hc.1, hc.2.1, hc.2.2.1⟩

/-- C10: the turn-cap exit of play_match always reports winner none, reason
max_turns and turns = max_turns, and the engine only evaluates terminal at
the start of turns 1 to max_turns; concretely, the first-legal match capped
at 7 turns ends with the winning 2-4-6 diagonal already on the board (the
rules verdict at the final state is a win for player 0), yet is reported as
a max_turns draw. -/
theorem claim_C10_max_turns_cap :
    (∀ (g : Game) (a0 a1 : Agent) (clk : Nat → Int) (mt : Nat) (pp : Bool)
      (res : MatchResult) (fs : JSONValue) (et : Nat) (ps : List Nat),
      play_match g a0 a1 clk mt pp = .ok res fs ExitKind.maxTurns et ps →
      res.winner = none ∧ res.reason = "max_turns" ∧ res.turns = mt) ∧
    (play_match TicTacToe firstLegalAgent firstLegalAgent (fun _ => 0) 7 false =
      EngineOutcome.ok resSeven boardSeven ExitKind.maxTurns 8 [] ∧
     TicTacToe.terminal boardSeven = ⟨true, some 0, "win"⟩) := by
  constructor
  · intro g a0 a1 clk mt pp res fs et ps h
    obtain ⟨_, _, _, _, _, _, _, _, hmf⟩ :=
      play_match_spec g a0 a1 clk mt pp res fs ExitKind.maxTurns et ps h
    obtain ⟨ht, hw, hr, _⟩ := hmf rfl
    exact ⟨hw, hr, ht⟩
  · exact ⟨by decide, by decide⟩

/-- Witness for C10 through its universally quantified conjunct. -/
theorem claim_C10_witness :
    resSeven.winner = none ∧ resSeven.reason = "max_turns" ∧ resSeven.turns = 7 :=
  claim_C10_max_turns_cap.1 TicTacToe firstLegalAgent firstLegalAgent (fun _ => 0) 7 false
    resSeven boardSeven 8 [] (by decide)

/-- C9 counterexample: with prime_pause enabled, the pause fires after the
applied moves of the prime turns 2, 3, 5 and 7 of a match whose both seats
are subprocess-modelled agents (the echo bot of the test suite wired
through the transport model).  The engine never inspects the agent before
pausing, so the pause does fire on subprocess-agent turns, contrary to the
claim. -/
theorem claim_C9_counterexample :
    outcomePauses (play_match TicTacToe echoBot echoBot (fun _ => 0) 9 true) = [2, 3, 5, 7] ∧
    echoBot.name = "subprocess" := ⟨by decide, rfl⟩

/-- C9 amended: the prime-turn pause is controlled solely by the prime_pause
flag and the primality of the turn number.  The turns on which play_match
blocks on the operator prompt are exactly the applied-move turns t with
prime_pause set and _is_prime t, whatever the agents are; when prime_pause
is false (the default) no pause ever fires. -/
theorem claim_C9_pause_amended (g : Game) (a0 a1 : Agent) (clk : Nat → Int)
    (mt : Nat) (pp : Bool) (res : MatchResult) (fs : JSONValue) (ek : ExitKind)
    (et : Nat) (ps : List Nat)
    (h : play_match g a0 a1 clk mt pp = .ok res fs ek et ps) :
    ps = ((res.move_history.filter (fun r => r.note.isNone)).map (fun r => r.turn)).filter
        (fun t => pp && _is_prime t) ∧
    (pp = false → ps = []) := by
  obtain ⟨_, _, _, _, hps, _, _, _, _⟩ :=
    play_match_spec g a0 a1 clk mt pp res fs ek et ps h
  refine ⟨hps, fun hpp => ?_⟩
  subst hpp
  rw [hps]
  simp [pausesOf]

/-- Witness for the amended C9 on the illegal-move forfeit run. -/
theorem claim_C9_witness :
    ([] : List Nat) =
      ((resIllegal.move_history.filter (fun r => r.note.isNone)).map (fun r => r.turn)).filter
        (fun t => false && _is_prime t) :=
  (claim_C9_pause_amended TicTacToe illegalAgent firstLegalAgent (fun _ => 0) 10000 false
    resIllegal (boardToState (List.replicate 9 0)) ExitKind.illegalMove 1 [] (by decide)).1

/-- C5 counterexample: the claim maps every winner value other than 0, 1 or
none to none, but the isinstance int check of the source accepts Python
booleans, so a payload whose winner is the JSON value true is normalized to
winner 1 rather than none (its reconstructed initial state is non-terminal
and its reason is the non-empty string agent_error). -/
theorem claim_C5_counterexample :
    (replay_from_log_payload TicTacToe ⟨⟨.str "agent_error", .bool true, []⟩⟩).terminal =
      ⟨true, some 1, "agent_error"⟩ ∧
    ¬ (replay_from_log_payload TicTacToe ⟨⟨.str "agent_error", .bool true, []⟩⟩).terminal.winner
        = none :=
  ⟨by decide, by decide⟩

/-- C5 amended: when the game rules consider the reconstructed last state
non-terminal and the payload carries a non-empty string reason,
replay_from_log_payload returns a terminal verdict with that reason and the
pyWinner01 normalization of the payload winner, which keeps 0, 1 and none,
coerces the booleans true and false to 1 and 0 (Python bools pass the int
isinstance check), and turns every other value into none; when the rules
consider the last state terminal, the replay is returned unchanged. -/
theorem claim_C5_payload_override (g : Game) (payload : LogPayload) :
    ((replay_from_move_history g payload.result.move_history).terminal.is_terminal = true →
      replay_from_log_payload g payload = replay_from_move_history g payload.result.move_history) ∧
    ((replay_from_move_history g payload.result.move_history).terminal.is_terminal = false →
      (∀ s, payload.result.reason = .str s → s ≠ "" →
        replay_from_log_payload g payload =
          { game := (replay_from_move_history g payload.result.move_history).game,
            moves := (replay_from_move_history g payload.result.move_history).moves,
            states := (replay_from_move_history g payload.result.move_history).states,
            terminal := ⟨true, pyWinner01 payload.result.winner, s⟩ }) ∧
      (pyNonEmptyStr payload.result.reason = none →
        replay_from_log_payload g payload = replay_from_move_history g payload.result.move_history)) ∧
    pyWinner01 .null = none ∧ pyWinner01 (.int 0) = some 0 ∧ pyWinner01 (.int 1) = some 1 ∧
    pyWinner01 (.bool true) = some 1 ∧ pyWinner01 (.bool false) = some 0 ∧
    (∀ n : Int, n ≠ 0 → n ≠ 1 → pyWinner01 (.int n) = none) ∧
    (∀ s, pyWinner01 (.str s) = none) ∧ (∀ xs, pyWinner01 (.arr xs) = none) ∧
    (∀ fields, pyWinner01 (.obj fields) = none) := by
  refine ⟨?_, ?_, rfl, rfl, rfl, rfl, rfl, ?_, fun s => rfl, fun xs => rfl, fun fields => rfl⟩
  · intro hterm
    unfold replay_from_log_payload
    simp [hterm]
  · intro hterm
    constructor
    · intro s hs hne
      unfold replay_from_log_payload
      simp [hterm, hs, pyNonEmptyStr, hne]
    · intro hnone
      unfold replay_from_log_payload
      simp [hterm, hnone]
  · intro n h0 h1
    simp [pyWinner01, pyIntValue, h0, h1]

/-- Witness for C5 amended: a non-terminal reconstruction with reason
timeout and winner 1 is overridden to the engine-level verdict. -/
theorem claim_C5_witness :
    replay_from_log_payload TicTacToe ⟨⟨.str "timeout", .int 1, []⟩⟩ =
      { game := (replay_from_move_history TicTacToe
          (⟨⟨.str "timeout", .int 1, []⟩⟩ : LogPayload).result.move_history).game,
        moves := (replay_from_move_history TicTacToe
          (⟨⟨.str "timeout", .int 1, []⟩⟩ : LogPayload).result.move_history).moves,
        states := (replay_from_move_history TicTacToe
          (⟨⟨.str "timeout", .int 1, []⟩⟩ : LogPayload).result.move_history).states,
        terminal := ⟨true, pyWinner01 (.int 1), "timeout"⟩ } :=
  ((claim_C5_payload_override TicTacToe ⟨⟨.str "timeout", .int 1, []⟩⟩).2.1
    (by decide)).1 "timeout" rfl (by decide)

/-- C8: the reading loop of the subprocess transport silently skips blank
lines, non-JSON lines and JSON values that are not a move-typed dict
(including dicts of unknown type); the first move-typed dict yields its move
field; an exhausted stream (closed stdout) is an error, never a skip. -/
theorem claim_C8_reader (pre rest : List BotLine) (fields : List (String × JSONValue))
    (m : JSONValue) (hpre : ∀ l ∈ pre, lineSkipped l = true)
    (ht : jget fields "type" = some (.str "move"))
    (hm : jget fields "move" = some m) :
    botReadLoop (pre ++ rest) = botReadLoop rest ∧
    botReadLoop [] = .error "bot stdout closed" ∧
    botReadLoop (.json (.obj fields) :: rest) = .ok m := by
  refine ⟨?_, rfl, ?_⟩
  · induction pre with
    | nil => rfl
    | cons l pre ih =>
      have hl := hpre l (by simp)
      have hrest : ∀ x ∈ pre, lineSkipped x = true := fun x hx => hpre x (by simp [hx])
      rw [List.cons_append]
      cases l with
      | blank => rw [show botReadLoop (.blank :: (pre ++ rest)) = botReadLoop (pre ++ rest)
          from rfl]; exact ih hrest
      | nonJson raw => rw [show botReadLoop (.nonJson raw :: (pre ++ rest)) =
          botReadLoop (pre ++ rest) from rfl]; exact ih hrest
      | json v =>
        cases v with
        | obj fl =>
          have hne : ¬ (jget fl "type" = some (.str "move")) := by
            simpa [lineSkipped] using hl
          rw [show botReadLoop (.json (.obj fl) :: (pre ++ rest)) =
            (if jget fl "type" = some (.str "move") then
              match jget fl "move" with
              | some mv => Except.ok mv
              | none => Except.error "bot move message missing move"
            else botReadLoop (pre ++ rest)) from rfl]
          rw [if_neg hne]
          exact ih hrest
        | null => exact ih hrest
        | bool b => exact ih hrest
        | int n => exact ih hrest
        | str s => exact ih hrest
        | arr xs => exact ih hrest
  · rw [show botReadLoop (.json (.obj fields) :: rest) =
      (if jget fields "type" = some (.str "move") then
        match jget fields "move" with
        | some mv => Except.ok mv
        | none => Except.error "bot move message missing move"
      else botReadLoop rest) from rfl]
    rw [if_pos ht, hm]

/-- Witness for C8: debug noise is skipped and the first move message is
returned; the empty stream errors. -/
theorem claim_C8_witness :
    botReadLoop ([.blank, .nonJson "dbg", .json (.str "x"), .json (.obj [("type", .str "log")])] ++
        [.json (.obj [("type", .str "move"), ("move", .int 4)])]) = Except.ok (.int 4) ∧
    botReadLoop [] = Except.error "bot stdout closed" := by
  have hc := claim_C8_reader
    [.blank, .nonJson "dbg", .json (.str "x"), .json (.obj [("type", .str "log")])]
    [.json (.obj [("type", .str "move"), ("move", .int 4)])]
    [("type", .str "move"), ("move", .int 4)] (.int 4)
    (by decide) (by decide) (by decide)
  exact ⟨by rw [hc.1]; exact (claim_C8_reader [] []
    [("type", .str "move"), ("move", .int 4)] (.int 4)
    (by decide) (by decide) (by decide)).2.2, hc.2.1⟩

/-
Scoreboard bookkeeping lemmas.
-/

/-- Wins plus losses plus draws of one row. -/
def fWLD (r : Row) : Nat := r.wins + r.losses + r.draws

/-- Points of one row. -/
def fPts (r : Row) : Nat := r.points

/-- Sum of a row statistic over the whole scoreboard. -/
def sbTotal (f : Row → Nat) (sb : Scoreboard) : Nat :=
  (sb.map (fun e => f e.2)).sum

theorem sbKeys_cons (e : String × Row) (t : Scoreboard) :
    sbKeys (e :: t) = e.1 :: sbKeys t := rfl

theorem sbSet_cons (e : String × Row) (t : Scoreboard) (k : String) (v : Row) :
    sbSet (e :: t) k v = (if e.1 = k then (k, v) else e) :: sbSet t k v := rfl

theorem sbGet_cons (e : String × Row) (t : Scoreboard) (k : String) :
    sbGet (e :: t) k = if e.1 = k then e.2 else sbGet t k := rfl

theorem sbTotal_cons (f : Row → Nat) (e : String × Row) (t : Scoreboard) :
    sbTotal f (e :: t) = f e.2 + sbTotal f t := by
  unfold sbTotal
  rw [List.map_cons, List.sum_cons]

theorem sbKeys_sbSet (sb : Scoreboard) (k : String) (v : Row) :
    sbKeys (sbSet sb k v) = sbKeys sb := by
  induction sb with
  | nil => rfl
  | cons e t ih =>
    rw [sbSet_cons, sbKeys_cons, sbKeys_cons, ih]
    by_cases h : e.1 = k <;> simp [h]

theorem sbSet_not_mem {sb : Scoreboard} {k : String} (v : Row) (h : k ∉ sbKeys sb) :
    sbSet sb k v = sb := by
  induction sb with
  | nil => rfl
  | cons e t ih =>
    rw [sbKeys_cons] at h
    have hek : ¬ (e.1 = k) := fun he => h (List.mem_cons.mpr (Or.inl he.symm))
    have ht : k ∉ sbKeys t := fun hm => h (List.mem_cons.mpr (Or.inr hm))
    rw [sbSet_cons, if_neg hek, ih ht]

theorem sbGet_sbSet_same {sb : Scoreboard} {k : String} (v : Row) (h : k ∈ sbKeys sb) :
    sbGet (sbSet sb k v) k = v := by
  induction sb with
  | nil => exact absurd h (by intro hh; exact nomatch hh)
  | cons e t ih =>
    rw [sbKeys_cons] at h
    rw [sbSet_cons]
    by_cases hek : e.1 = k
    · rw [if_pos hek, sbGet_cons]
      simp
    · have ht : k ∈ sbKeys t := by
        rcases List.mem_cons.mp h with h1 | h1
        · exact absurd h1.symm hek
        · exact h1
      rw [if_neg hek, sbGet_cons, if_neg hek]
      exact ih ht

theorem sbGet_sbSet_ne {sb : Scoreboard} {k j : String} (v : Row) (h : j ≠ k) :
    sbGet (sbSet sb k v) j = sbGet sb j := by
  induction sb with
  | nil => rfl
  | cons e t ih =>
    rw [sbSet_cons]
    by_cases hek : e.1 = k
    · rw [if_pos hek, sbGet_cons, sbGet_cons, if_neg (fun hkj => h hkj.symm),
        if_neg (fun hej => h (hej.symm.trans hek))]
      exact ih
    · rw [if_neg hek, sbGet_cons, sbGet_cons]
      by_cases hej : e.1 = j
      · rw [if_pos hej, if_pos hej]
      · rw [if_neg hej, if_neg hej, ih]

theorem sbTotal_sbSet (f : Row → Nat) :
    ∀ {sb : Scoreboard} {k : String} (v : Row), (sbKeys sb).Nodup → k ∈ sbKeys sb →
      sbTotal f (sbSet sb k v) + f (sbGet sb k) = sbTotal f sb + f v := by
  intro sb
  induction sb with
  | nil => intro k v _ h; exact absurd h (by intro hh; exact nomatch hh)
  | cons e t ih =>
    intro k v hnd hk
    rw [sbKeys_cons] at hnd hk
    have hnd2 := List.nodup_cons.mp hnd
    rw [sbSet_cons, sbGet_cons]
    by_cases hek : e.1 = k
    · have hkt : k ∉ sbKeys t := hek ▸ hnd2.1
      rw [if_pos hek, if_pos hek, sbSet_not_mem v hkt, sbTotal_cons, sbTotal_cons]
      show f v + sbTotal f t + f e.2 = f e.2 + sbTotal f t + f v
      omega
    · have hkt : k ∈ sbKeys t := by
        rcases List.mem_cons.mp hk with h1 | h1
        · exact absurd h1.symm hek
        · exact h1
      rw [if_neg hek, if_neg hek, sbTotal_cons, sbTotal_cons]
      have hih := ih v hnd2.2 hkt
      show f e.2 + sbTotal f (sbSet t k v) + f (sbGet t k) = f e.2 + sbTotal f t + f v
      omega

theorem sbTotal_step (f : Row → Nat) {sb : Scoreboard} {k : String} (v : Row) (d : Nat)
    (hnd : (sbKeys sb).Nodup) (hk : k ∈ sbKeys sb) (hv : f v = f (sbGet sb k) + d) :
    sbTotal f (sbSet sb k v) = sbTotal f sb + d := by
  have h := sbTotal_sbSet f v hnd hk
  omega

/-- Effect of a drawn match on the scoreboard: both seats gain a draw and
one point, all other rows are untouched. -/
theorem apply_result_draw (sb : Scoreboard) (p0 p1 : String)
    (hnd : (sbKeys sb).Nodup) (h0 : p0 ∈ sbKeys sb) (h1 : p1 ∈ sbKeys sb) (hne : p0 ≠ p1) :
    sbGet (_apply_result sb p0 p1 none) p0 =
      { sbGet sb p0 with draws := (sbGet sb p0).draws + 1,
                         points := (sbGet sb p0).points + 1 } ∧
    sbGet (_apply_result sb p0 p1 none) p1 =
      { sbGet sb p1 with draws := (sbGet sb p1).draws + 1,
                         points := (sbGet sb p1).points + 1 } ∧
    (∀ k, k ≠ p0 → k ≠ p1 → sbGet (_apply_result sb p0 p1 none) k = sbGet sb k) ∧
    sbKeys (_apply_result sb p0 p1 none) = sbKeys sb := by
  simp only [_apply_result]
  have hg1 : sbGet (sbSet sb p0
      { sbGet sb p0 with draws := (sbGet sb p0).draws + 1,
                         points := (sbGet sb p0).points + 1 }) p1 = sbGet sb p1 :=
    sbGet_sbSet_ne _ (fun h => hne h.symm)
  rw [hg1]
  refine ⟨?_, ?_, ?_, ?_⟩
  · rw [sbGet_sbSet_ne _ hne, sbGet_sbSet_same _ h0]
  · rw [sbGet_sbSet_same _ (by rw [sbKeys_sbSet]; exact h1)]
  · intro k hk0 hk1
    rw [sbGet_sbSet_ne _ hk1, sbGet_sbSet_ne _ hk0]
  · rw [sbKeys_sbSet, sbKeys_sbSet]

/-- Effect of a decisive match on the scoreboard: the winner gains a win and
three points, the loser gains a loss and no points, all other rows are
untouched. -/
theorem apply_result_win (sb : Scoreboard) (p0 p1 w l : String)
    (hnd : (sbKeys sb).Nodup) (h0 : p0 ∈ sbKeys sb) (h1 : p1 ∈ sbKeys sb)
    (hne : p0 ≠ p1) (hw : w = p0 ∨ w = p1) (hl : l = if w = p0 then p1 else p0) :
    sbGet (_apply_result sb p0 p1 (some w)) w =
      { sbGet sb w with wins := (sbGet sb w).wins + 1,
                        points := (sbGet sb w).points + 3 } ∧
    sbGet (_apply_result sb p0 p1 (some w)) l =
      { sbGet sb l with losses := (sbGet sb l).losses + 1 } ∧
    (∀ k, k ≠ p0 → k ≠ p1 → sbGet (_apply_result sb p0 p1 (some w)) k = sbGet sb k) ∧
    sbKeys (_apply_result sb p0 p1 (some w)) = sbKeys sb := by
  have hwm : w ∈ sbKeys sb := by rcases hw with h | h <;> rw [h] <;> assumption
  have hwl : w ≠ l := by
    by_cases hwp : w = p0
    · rw [hl, if_pos hwp, hwp]; exact hne
    · rcases hw with h | h
      · exact absurd h hwp
      · rw [hl, if_neg hwp, h]; exact fun hh => hne hh.symm
  have hlm : l ∈ sbKeys sb := by
    by_cases hwp : w = p0
    · rw [hl, if_pos hwp]; exact h1
    · rw [hl, if_neg hwp]; exact h0
  simp only [_apply_result]
  rw [show (if w = p0 then p1 else p0) = l from hl.symm]
  have hg1 : sbGet (sbSet sb w
      { sbGet sb w with wins := (sbGet sb w).wins + 1 }) l = sbGet sb l :=
    sbGet_sbSet_ne _ (fun h => hwl h.symm)
  rw [hg1]
  have hg2 : sbGet (sbSet (sbSet sb w { sbGet sb w with wins := (sbGet sb w).wins + 1 }) l
      { sbGet sb l with losses := (sbGet sb l).losses + 1 }) w =
      { sbGet sb w with wins := (sbGet sb w).wins + 1 } := by
    rw [sbGet_sbSet_ne _ hwl, sbGet_sbSet_same _ hwm]
  rw [hg2]
  refine ⟨?_, ?_, ?_, ?_⟩
  · rw [sbGet_sbSet_same _ (by rw [sbKeys_sbSet, sbKeys_sbSet]; exact hwm)]
  · rw [sbGet_sbSet_ne _ (fun h => hwl h.symm),
      sbGet_sbSet_same _ (by rw [sbKeys_sbSet]; exact hlm)]
  · intro k hk0 hk1
    have hkw : k ≠ w := by rcases hw with h | h <;> rw [h] <;> assumption
    have hkl : k ≠ l := by
      by_cases hwp : w = p0
      · rw [hl, if_pos hwp]; exact hk1
      · rw [hl, if_neg hwp]; exact hk0
    rw [sbGet_sbSet_ne _ hkw, sbGet_sbSet_ne _ hkl, sbGet_sbSet_ne _ hkw]
  · rw [sbKeys_sbSet, sbKeys_sbSet, sbKeys_sbSet]

/-- Totals moved by one _apply_result call: two seat slots and either three
points (decisive) or two points (draw). -/
theorem apply_result_sums (sb : Scoreboard) (p0 p1 : String) (w : Option String)
    (hnd : (sbKeys sb).Nodup) (h0 : p0 ∈ sbKeys sb) (h1 : p1 ∈ sbKeys sb) (hne : p0 ≠ p1)
    (hw : w = none ∨ w = some p0 ∨ w = some p1) :
    sbKeys (_apply_result sb p0 p1 w) = sbKeys sb ∧
    sbTotal fWLD (_apply_result sb p0 p1 w) = sbTotal fWLD sb + 2 ∧
    sbTotal fPts (_apply_result sb p0 p1 w) = sbTotal fPts sb + (if w.isSome then 3 else 2) := by
  cases w with
  | none =>
    simp only [_apply_result, Option.isSome_none, Bool.false_eq_true, if_false]
    have hk1 : sbKeys (sbSet sb p0
        { sbGet sb p0 with draws := (sbGet sb p0).draws + 1,
                           points := (sbGet sb p0).points + 1 }) = sbKeys sb :=
      sbKeys_sbSet ..
    have hg1 : sbGet (sbSet sb p0
        { sbGet sb p0 with draws := (sbGet sb p0).draws + 1,
                           points := (sbGet sb p0).points + 1 }) p1 = sbGet sb p1 :=
      sbGet_sbSet_ne _ (fun h => hne h.symm)
    rw [hg1]
    refine ⟨by rw [sbKeys_sbSet, hk1], ?_, ?_⟩
    · rw [sbTotal_step fWLD _ 1 (by rw [hk1]; exact hnd) (by rw [hk1]; exact h1)
        (by rw [hg1]; unfold fWLD; dsimp only; all_goals omega),
        sbTotal_step fWLD _ 1 hnd h0 (by unfold fWLD; dsimp only; all_goals omega)]
      all_goals omega
    · rw [sbTotal_step fPts _ 1 (by rw [hk1]; exact hnd) (by rw [hk1]; exact h1)
        (by rw [hg1]; unfold fPts; dsimp only; all_goals omega),
        sbTotal_step fPts _ 1 hnd h0 (by unfold fPts; dsimp only; all_goals omega)]
      all_goals omega
  | some ww =>
    have hww : ww = p0 ∨ ww = p1 := by
      rcases hw with h | h | h
      · exact nomatch h
      · exact Or.inl (Option.some_inj.mp h)
      · exact Or.inr (Option.some_inj.mp h)
    have hwm : ww ∈ sbKeys sb := by rcases hww with h | h <;> rw [h] <;> assumption
    have hwl : ww ≠ (if ww = p0 then p1 else p0) := by
      by_cases hwp : ww = p0
      · rw [if_pos hwp, hwp]; exact hne
      · rcases hww with h | h
        · exact absurd h hwp
        · rw [if_neg hwp, h]; exact fun hh => hne hh.symm
    have hlm : (if ww = p0 then p1 else p0) ∈ sbKeys sb := by
      by_cases hwp : ww = p0
      · rw [if_pos hwp]; exact h1
      · rw [if_neg hwp]; exact h0
    simp only [_apply_result, Option.isSome_some, if_true]
    have hk1 : sbKeys (sbSet sb ww { sbGet sb ww with wins := (sbGet sb ww).wins + 1 }) =
        sbKeys sb := sbKeys_sbSet ..
    have hg1 : sbGet (sbSet sb ww { sbGet sb ww with wins := (sbGet sb ww).wins + 1 })
        (if ww = p0 then p1 else p0) = sbGet sb (if ww = p0 then p1 else p0) :=
      sbGet_sbSet_ne _ (fun h => hwl h.symm)
    rw [hg1]
    have hk2 : sbKeys (sbSet (sbSet sb ww { sbGet sb ww with wins := (sbGet sb ww).wins + 1 })
        (if ww = p0 then p1 else p0)
        { sbGet sb (if ww = p0 then p1 else p0) with
            losses := (sbGet sb (if ww = p0 then p1 else p0)).losses + 1 }) = sbKeys sb := by
      rw [sbKeys_sbSet, hk1]
    have hg2 : sbGet (sbSet (sbSet sb ww { sbGet sb ww with wins := (sbGet sb ww).wins + 1 })
        (if ww = p0 then p1 else p0)
        { sbGet sb (if ww = p0 then p1 else p0) with
            losses := (sbGet sb (if ww = p0 then p1 else p0)).losses + 1 }) ww =
        { sbGet sb ww with wins := (sbGet sb ww).wins + 1 } := by
      rw [sbGet_sbSet_ne _ hwl, sbGet_sbSet_same _ hwm]
    rw [hg2]
    refine ⟨by rw [sbKeys_sbSet, hk2], ?_, ?_⟩
    · rw [sbTotal_step fWLD _ 0 (by rw [hk2]; exact hnd) (by rw [hk2]; exact hwm)
        (by rw [hg2]; unfold fWLD; dsimp only; all_goals omega),
        sbTotal_step fWLD _ 1 (by rw [hk1]; exact hnd) (by rw [hk1]; exact hlm)
        (by rw [hg1]; unfold fWLD; dsimp only; all_goals omega),
        sbTotal_step fWLD _ 1 hnd hwm (by unfold fWLD; dsimp only; all_goals omega)]
      all_goals omega
    · rw [sbTotal_step fPts _ 3 (by rw [hk2]; exact hnd) (by rw [hk2]; exact hwm)
        (by rw [hg2]; unfold fPts; dsimp only; all_goals omega),
        sbTotal_step fPts _ 0 (by rw [hk1]; exact hnd) (by rw [hk1]; exact hlm)
        (by rw [hg1]; unfold fPts; dsimp only; all_goals omega),
        sbTotal_step fPts _ 0 hnd hwm (by unfold fPts; dsimp only; all_goals omega)]
      all_goals omega

/-- Invariant of the match fold of run_tournament: the summaries accumulate
in schedule order, the scoreboard keys are preserved, and the scoreboard
totals advance by two seat slots per match and by three or two points per
decisive or drawn match. -/
theorem runMatches_spec (gameOf : String → Game) (agentOf : String → Agent)
    (clk : Nat → Int) (pp : Bool) :
    ∀ (sched : List Sched) (sb : Scoreboard) (acc : List MatchSummary)
      (out : List MatchSummary × Scoreboard),
      (sbKeys sb).Nodup →
      (∀ s ∈ sched, s.p0_id ∈ sbKeys sb ∧ s.p1_id ∈ sbKeys sb ∧ s.p0_id ≠ s.p1_id) →
      runMatches gameOf agentOf clk pp sched sb acc = .ok out →
      ∃ neu, out.1 = acc ++ neu ∧
        neu.map (fun m => (m.context, m.p0, m.p1)) =
          sched.map (fun s => (s.context, s.p0_id, s.p1_id)) ∧
        sbKeys out.2 = sbKeys sb ∧
        sbTotal fWLD out.2 = sbTotal fWLD sb + 2 * neu.length ∧
        sbTotal fPts out.2 = sbTotal fPts sb +
          3 * (neu.filter (fun m => m.winner.isSome)).length +
          2 * (neu.filter (fun m => m.winner.isNone)).length := by
  intro sched
  induction sched with
  | nil =>
    intro sb acc out hnd hsides hrun
    have hout : (acc, sb) = out := Except.ok.inj hrun
    refine ⟨[], ?_, rfl, ?_, ?_, ?_⟩
    · rw [← hout, List.append_nil]
    · rw [← hout]
    · rw [← hout]; simp
    · rw [← hout]; simp
  | cons s rest ih =>
    intro sb acc out hnd hsides hrun
    simp only [runMatches] at hrun
    split at hrun
    · exact nomatch hrun
    · rename_i res fs ek et ps hpm
      obtain ⟨h0, h1, hne⟩ := hsides s (List.mem_cons.mpr (Or.inl rfl))
      have hwdisj : winnerIdOf res s.p0_id s.p1_id = none ∨
          winnerIdOf res s.p0_id s.p1_id = some s.p0_id ∨
          winnerIdOf res s.p0_id s.p1_id = some s.p1_id := by
        cases hres : res.winner with
        | none => exact Or.inl (by unfold winnerIdOf; rw [hres])
        | some w =>
          by_cases hz : w = 0
          · refine Or.inr (Or.inl ?_)
            unfold winnerIdOf
            rw [hres]
            show some (if w = 0 then s.p0_id else s.p1_id) = some s.p0_id
            rw [if_pos hz]
          · refine Or.inr (Or.inr ?_)
            unfold winnerIdOf
            rw [hres]
            show some (if w = 0 then s.p0_id else s.p1_id) = some s.p1_id
            rw [if_neg hz]
      obtain ⟨hkeys, hwld, hpts⟩ := apply_result_sums sb s.p0_id s.p1_id
        (winnerIdOf res s.p0_id s.p1_id) hnd h0 h1 hne hwdisj
      have hsides2 : ∀ x ∈ rest,
          x.p0_id ∈ sbKeys (_apply_result sb s.p0_id s.p1_id (winnerIdOf res s.p0_id s.p1_id)) ∧
          x.p1_id ∈ sbKeys (_apply_result sb s.p0_id s.p1_id (winnerIdOf res s.p0_id s.p1_id)) ∧
          x.p0_id ≠ x.p1_id := by
        intro x hx
        obtain ⟨a1, a2, a3⟩ := hsides x (List.mem_cons.mpr (Or.inr hx))
        exact ⟨by rw [hkeys]; exact a1, by rw [hkeys]; exact a2, a3⟩
      obtain ⟨neu, hn1, hn2, hn3, hn4, hn5⟩ := ih
        (_apply_result sb s.p0_id s.p1_id (winnerIdOf res s.p0_id s.p1_id))
        (acc ++ [⟨s.context, res.game, s.p0_id, s.p1_id, winnerIdOf res s.p0_id s.p1_id,
          res.reason, res.turns⟩]) out (by rw [hkeys]; exact hnd) hsides2 hrun
      refine ⟨⟨s.context, res.game, s.p0_id, s.p1_id, winnerIdOf res s.p0_id s.p1_id,
        res.reason, res.turns⟩ :: neu, ?_, ?_, ?_, ?_, ?_⟩
      · rw [hn1, List.append_assoc]; rfl
      · rw [List.map_cons, hn2, List.map_cons]
      · rw [hn3, hkeys]
      · rw [hn4, hwld, List.length_cons]; omega
      · cases hwid : winnerIdOf res s.p0_id s.p1_id with
        | none =>
          rw [hwid] at hpts hn5
          simp only [List.filter_cons, Option.isSome_none, Option.isNone_none,
            Bool.false_eq_true, if_false, if_true, List.length_cons]
          rw [hn5, hpts]
          simp only [Option.isSome_none, Bool.false_eq_true, if_false]
          omega
        | some u =>
          rw [hwid] at hpts hn5
          simp only [List.filter_cons, Option.isSome_some, Option.isNone_some,
            Bool.false_eq_true, if_false, if_true, List.length_cons]
          rw [hn5, hpts]
          simp only [Option.isSome_some, if_true]
          omega

theorem pairings_cons (x : Competitor) (t : List Competitor) :
    _pairings (x :: t) = t.map (fun y => (x, y)) ++ _pairings t := rfl

theorem pairings_mem : ∀ {xs : List Competitor} {p : Competitor × Competitor},
    p ∈ _pairings xs → p.1 ∈ xs ∧ p.2 ∈ xs := by
  intro xs
  induction xs with
  | nil => intro p h; exact nomatch h
  | cons x t ih =>
    intro p h
    rw [pairings_cons] at h
    rcases List.mem_append.mp h with h1 | h1
    · rcases List.mem_map.mp h1 with ⟨y, hy, rfl⟩
      exact ⟨List.mem_cons.mpr (Or.inl rfl), List.mem_cons.mpr (Or.inr hy)⟩
    · obtain ⟨ha, hb⟩ := ih h1
      exact ⟨List.mem_cons.mpr (Or.inr ha), List.mem_cons.mpr (Or.inr hb)⟩

theorem pairings_ids_ne : ∀ {xs : List Competitor},
    (xs.map (fun c => c.id)).Nodup →
    ∀ {p : Competitor × Competitor}, p ∈ _pairings xs → p.1.id ≠ p.2.id := by
  intro xs
  induction xs with
  | nil => intro _ p h; exact nomatch h
  | cons x t ih =>
    intro hnd p h
    rw [List.map_cons] at hnd
    have hnd2 := List.nodup_cons.mp hnd
    rw [pairings_cons] at h
    rcases List.mem_append.mp h with h1 | h1
    · rcases List.mem_map.mp h1 with ⟨y, hy, rfl⟩
      intro he
      apply hnd2.1
      rw [he]
      exact List.mem_map.mpr ⟨y, hy, rfl⟩
    · exact ih hnd2.2 h1

theorem pairings_length : ∀ (xs : List Competitor),
    (_pairings xs).length = xs.length.choose 2 := by
  intro xs
  induction xs with
  | nil => rfl
  | cons x t ih =>
    rw [pairings_cons, List.length_append, List.length_map, ih, List.length_cons,
      Nat.choose_succ_succ, Nat.choose_one_right]

theorem seatPairs_facts (p0d : String) (a b : Competitor) (sw : Bool)
    (hp0d : p0d = a.id ∨ p0d = b.id) (hab : a.id ≠ b.id) :
    ∀ seat ∈ seatPairs p0d a b sw,
      (seat.1 = a.id ∧ seat.2 = b.id) ∨ (seat.1 = b.id ∧ seat.2 = a.id) := by
  intro seat hseat
  have hparts : (p0d = a.id ∧ (if p0d = b.id then a.id else b.id) = b.id) ∨
      (p0d = b.id ∧ (if p0d = b.id then a.id else b.id) = a.id) := by
    by_cases hpb : p0d = b.id
    · exact Or.inr ⟨hpb, if_pos hpb⟩
    · rcases hp0d with h | h
      · exact Or.inl ⟨h, if_neg hpb⟩
      · exact absurd h hpb
  unfold seatPairs at hseat
  cases sw with
  | false =>
    simp only [Bool.false_eq_true, if_false, List.mem_singleton] at hseat
    subst hseat
    rcases hparts with ⟨h1, h2⟩ | ⟨h1, h2⟩
    · exact Or.inl ⟨h1, h2⟩
    · exact Or.inr ⟨h1, h2⟩
  | true =>
    simp only [if_true, List.mem_cons, List.mem_singleton, List.not_mem_nil, or_false] at hseat
    rcases hseat with rfl | rfl
    · rcases hparts with ⟨h1, h2⟩ | ⟨h1, h2⟩
      · exact Or.inl ⟨h1, h2⟩
      · exact Or.inr ⟨h1, h2⟩
    · rcases hparts with ⟨h1, h2⟩ | ⟨h1, h2⟩
      · exact Or.inr ⟨h2, h1⟩
      · exact Or.inl ⟨h2, h1⟩

theorem scenarios_p0d (neutral : String) (a b : Competitor) :
    ∀ sc ∈ scenariosFor neutral a b, sc.2.2 = a.id ∨ sc.2.2 = b.id := by
  intro sc hsc
  unfold scenariosFor at hsc
  simp only [List.mem_cons, List.not_mem_nil, or_false] at hsc
  rcases hsc with rfl | rfl | rfl
  · exact Or.inl rfl
  · exact Or.inr rfl
  · show pyStrMin a.id b.id = a.id ∨ pyStrMin a.id b.id = b.id
    unfold pyStrMin
    by_cases hlt : pyCharsLt b.id.data a.id.data
    · rw [if_pos hlt]; exact Or.inr rfl
    · rw [if_neg hlt]; exact Or.inl rfl

/-- Every scheduled match seats the two paired competitors, which carry
distinct ids when the configured ids are distinct. -/
theorem sched_sides (comps : List Competitor) (neutral : String) (rounds : Nat) (sw : Bool)
    (hnd : (comps.map (fun c => c.id)).Nodup) :
    ∀ s ∈ scheduleMatches comps neutral rounds sw,
      s.p0_id ∈ comps.map (fun c => c.id) ∧ s.p1_id ∈ comps.map (fun c => c.id) ∧
      s.p0_id ≠ s.p1_id := by
  intro s hs
  unfold scheduleMatches at hs
  rcases List.mem_flatMap.mp hs with ⟨ab, hab, hs2⟩
  rcases List.mem_flatMap.mp hs2 with ⟨sc, hsc, hs3⟩
  rcases List.mem_flatMap.mp hs3 with ⟨r, _, hs4⟩
  rcases List.mem_map.mp hs4 with ⟨seat, hseat, rfl⟩
  have habne := pairings_ids_ne hnd hab
  have hmem := pairings_mem hab
  have hma : ab.1.id ∈ comps.map (fun c => c.id) := List.mem_map.mpr ⟨ab.1, hmem.1, rfl⟩
  have hmb : ab.2.id ∈ comps.map (fun c => c.id) := List.mem_map.mpr ⟨ab.2, hmem.2, rfl⟩
  have hfacts := seatPairs_facts sc.2.2 ab.1 ab.2 sw (scenarios_p0d neutral ab.1 ab.2 sc hsc)
    habne seat hseat
  rcases hfacts with ⟨h1, h2⟩ | ⟨h1, h2⟩
  · refine ⟨?_, ?_, ?_⟩
    · show seat.1 ∈ comps.map (fun c => c.id)
      rw [h1]; exact hma
    · show seat.2 ∈ comps.map (fun c => c.id)
      rw [h2]; exact hmb
    · show seat.1 ≠ seat.2
      rw [h1, h2]; exact habne
  · refine ⟨?_, ?_, ?_⟩
    · show seat.1 ∈ comps.map (fun c => c.id)
      rw [h1]; exact hmb
    · show seat.2 ∈ comps.map (fun c => c.id)
      rw [h2]; exact hma
    · show seat.1 ≠ seat.2
      rw [h1, h2]; exact habne.symm

theorem flatMap_congr_mem {α β : Type _} {l : List α} {f g : α → List β}
    (h : ∀ x ∈ l, f x = g x) : l.flatMap f = l.flatMap g := by
  induction l with
  | nil => rfl
  | cons x t ih =>
    rw [List.flatMap_cons, List.flatMap_cons, h x (List.mem_cons.mpr (Or.inl rfl)),
      ih (fun y hy => h y (List.mem_cons.mpr (Or.inr hy)))]

theorem flatMap_const_length {α β : Type _} (l : List α) (f : α → List β) (c : Nat)
    (h : ∀ a ∈ l, (f a).length = c) : (l.flatMap f).length = l.length * c := by
  induction l with
  | nil => simp
  | cons x t ih =>
    rw [List.flatMap_cons, List.length_append, h x (List.mem_cons.mpr (Or.inl rfl)),
      ih (fun a ha => h a (List.mem_cons.mpr (Or.inr ha))), List.length_cons]
    ring

/-- Modelled from the spec, section 4.3: for one unordered pair (a, b) the
scenario order is home of a, home of b, neutral; within each scenario every
round plays one match with the nominal first seat (the home competitor at
home, the lexicographically smaller id at the neutral game) and, when
swap_starts is set, a second match with the seats exchanged. -/
def specPerPair (rounds : Nat) (sw : Bool) (a b : Competitor) :
    List (String × String × String) :=
  [("home:" ++ a.id, a.id, b.id), ("home:" ++ b.id, b.id, a.id),
   ("neutral", pyStrMin a.id b.id, pyStrMax a.id b.id)].flatMap (fun t =>
    (List.range rounds).flatMap (fun _r =>
      if sw then [t, (t.1, t.2.2, t.2.1)] else [t]))

/-- Modelled from the spec, section 4.3: the whole round robin enumerates
every unordered pair of competitors in configured order and plays its
scenario list. -/
def specSchedule (comps : List Competitor) (rounds : Nat) (sw : Bool) :
    List (String × String × String) :=
  (_pairings comps).flatMap (fun ab => specPerPair rounds sw ab.1 ab.2)

theorem seatPairs_home_a (a b : Competitor) (sw : Bool) (hab : a.id ≠ b.id) :
    seatPairs a.id a b sw =
      if sw then [(a.id, b.id), (b.id, a.id)] else [(a.id, b.id)] := by
  unfold seatPairs
  rw [if_neg hab]

theorem seatPairs_home_b (a b : Competitor) (sw : Bool) :
    seatPairs b.id a b sw =
      if sw then [(b.id, a.id), (a.id, b.id)] else [(b.id, a.id)] := by
  unfold seatPairs
  rw [if_pos rfl]

theorem seatPairs_neutral (a b : Competitor) (sw : Bool) (hab : a.id ≠ b.id) :
    seatPairs (pyStrMin a.id b.id) a b sw =
      if sw then [(pyStrMin a.id b.id, pyStrMax a.id b.id),
                  (pyStrMax a.id b.id, pyStrMin a.id b.id)]
      else [(pyStrMin a.id b.id, pyStrMax a.id b.id)] := by
  unfold seatPairs pyStrMin pyStrMax
  by_cases hlt : pyCharsLt b.id.data a.id.data
  · simp only [if_pos hlt]
    simp
  · simp only [if_neg hlt]
    rw [if_neg hab]

theorem mapped_seatPairs (ctx : String) (p0 p1 : String) (ps : List (String × String)) (sw : Bool)
    (hps : ps = if sw then [(p0, p1), (p1, p0)] else [(p0, p1)]) :
    ps.map (fun seat => (ctx, seat.1, seat.2)) =
      if sw then [(ctx, p0, p1), (ctx, p1, p0)] else [(ctx, p0, p1)] := by
  subst hps
  cases sw <;> simp

/-- The code-side schedule projected to (context, first seat, second seat)
is exactly the spec-side enumeration. -/
theorem scheduleMatches_keys (comps : List Competitor) (neutral : String) (rounds : Nat)
    (sw : Bool) (hnd : (comps.map (fun c => c.id)).Nodup) :
    (scheduleMatches comps neutral rounds sw).map (fun s => (s.context, s.p0_id, s.p1_id)) =
      specSchedule comps rounds sw := by
  unfold scheduleMatches specSchedule
  rw [List.map_flatMap]
  apply flatMap_congr_mem
  intro ab hab
  have habne := pairings_ids_ne hnd hab
  rw [List.map_flatMap]
  unfold scenariosFor specPerPair
  rw [List.flatMap_cons, List.flatMap_cons, List.flatMap_cons, List.flatMap_nil,
    List.flatMap_cons, List.flatMap_cons, List.flatMap_cons, List.flatMap_nil]
  have piece : ∀ (ctx g : String) (p0d p0 p1 : String),
      seatPairs p0d ab.1 ab.2 sw = (if sw then [(p0, p1), (p1, p0)] else [(p0, p1)]) →
      ((List.range rounds).flatMap (fun _r =>
        (seatPairs p0d ab.1 ab.2 sw).map (fun seat =>
          (Sched.mk ctx g ab.1 ab.2 seat.1 seat.2)))).map
            (fun s => (s.context, s.p0_id, s.p1_id)) =
      (List.range rounds).flatMap (fun _r =>
        if sw then [(ctx, p0, p1), (ctx, p1, p0)] else [(ctx, p0, p1)]) := by
    intro ctx g p0d p0 p1 hsp
    rw [List.map_flatMap]
    apply flatMap_congr_mem
    intro r _
    rw [List.map_map]
    rw [show ((fun s => (s.context, s.p0_id, s.p1_id)) ∘
        (fun seat => Sched.mk ctx g ab.1 ab.2 seat.1 seat.2)) =
      (fun seat : String × String => (ctx, seat.1, seat.2)) from rfl]
    exact mapped_seatPairs ctx p0 p1 _ sw hsp
  rw [piece _ _ _ ab.1.id ab.2.id (seatPairs_home_a ab.1 ab.2 sw habne),
    piece _ _ _ ab.2.id ab.1.id (seatPairs_home_b ab.1 ab.2 sw),
    piece _ _ _ (pyStrMin ab.1.id ab.2.id) (pyStrMax ab.1.id ab.2.id)
      (seatPairs_neutral ab.1 ab.2 sw habne)]

theorem specPerPair_length (rounds : Nat) (sw : Bool) (a b : Competitor) :
    (specPerPair rounds sw a b).length = 3 * (rounds * (if sw then 2 else 1)) := by
  unfold specPerPair
  rw [flatMap_const_length _ _ (rounds * (if sw then 2 else 1))]
  · rfl
  · intro t _
    rw [flatMap_const_length _ _ (if sw then 2 else 1)]
    · rw [List.length_range]
    · intro r _
      cases sw <;> simp

theorem specSchedule_length (comps : List Competitor) (rounds : Nat) (sw : Bool) :
    (specSchedule comps rounds sw).length =
      comps.length.choose 2 * 3 * rounds * (if sw then 2 else 1) := by
  unfold specSchedule
  rw [flatMap_const_length _ _ (3 * (rounds * (if sw then 2 else 1)))
    (fun ab _ => specPerPair_length rounds sw ab.1 ab.2), pairings_length]
  ring

/-- Membership in _pairings is exactly the pairs of positions i < j. -/
theorem pairings_index_iff : ∀ (xs : List Competitor) (a b : Competitor),
    (a, b) ∈ _pairings xs ↔ ∃ i j : Nat, i < j ∧ xs[i]? = some a ∧ xs[j]? = some b := by
  intro xs
  induction xs with
  | nil =>
    intro a b
    constructor
    · intro h; exact nomatch h
    · rintro ⟨i, j, _, ha, _⟩
      rw [List.getElem?_nil] at ha
      exact nomatch ha
  | cons x t ih =>
    intro a b
    constructor
    · intro h
      rw [pairings_cons] at h
      rcases List.mem_append.mp h with h1 | h1
      · rcases List.mem_map.mp h1 with ⟨y, hy, heq⟩
        cases heq
        obtain ⟨j, hj⟩ := List.mem_iff_getElem?.mp hy
        exact ⟨0, j + 1, Nat.succ_pos j, List.getElem?_cons_zero, by rw [List.getElem?_cons_succ]; exact hj⟩
      · obtain ⟨i, j, hij, ha, hb⟩ := (ih a b).mp h1
        refine ⟨i + 1, j + 1, by omega, ?_, ?_⟩
        · rw [List.getElem?_cons_succ]; exact ha
        · rw [List.getElem?_cons_succ]; exact hb
    · rintro ⟨i, j, hij, ha, hb⟩
      rw [pairings_cons]
      apply List.mem_append.mpr
      cases i with
      | zero =>
        rw [List.getElem?_cons_zero] at ha
        have hax : x = a := Option.some_inj.mp ha
        cases j with
        | zero => exact absurd hij (lt_irrefl 0)
        | succ j2 =>
          rw [List.getElem?_cons_succ] at hb
          have hbt : b ∈ t := List.mem_iff_getElem?.mpr ⟨j2, hb⟩
          exact Or.inl (List.mem_map.mpr ⟨b, hbt, by rw [hax]⟩)
      | succ i2 =>
        cases j with
        | zero => exact absurd hij (by omega)
        | succ j2 =>
          rw [List.getElem?_cons_succ] at ha hb
          exact Or.inr ((ih a b).mpr ⟨i2, j2, by omega, ha, hb⟩)

instance exceptDecEq {e a : Type _} [DecidableEq e] [DecidableEq a] :
    DecidableEq (Except e a) := fun x y =>
  match x, y with
  | .error e1, .error e2 =>
    if h : e1 = e2 then isTrue (by rw [h]) else isFalse (fun hh => h (by cases hh; rfl))
  | .ok v1, .ok v2 =>
    if h : v1 = v2 then isTrue (by rw [h]) else isFalse (fun hh => h (by cases hh; rfl))
  | .error _, .ok _ => isFalse nofun
  | .ok _, .error _ => isFalse nofun

theorem sbKeys_init (comps : List Competitor) :
    sbKeys (_scoreboard_init comps) = comps.map (fun c => c.id) := by
  unfold sbKeys _scoreboard_init
  rw [List.map_map]
  rfl

theorem sbTotal_init (f : Row → Nat) (comps : List Competitor) (hf : f ⟨0, 0, 0, 0⟩ = 0) :
    sbTotal f (_scoreboard_init comps) = 0 := by
  induction comps with
  | nil => rfl
  | cons c t ih =>
    rw [show _scoreboard_init (c :: t) = (c.id, ⟨0, 0, 0, 0⟩) :: _scoreboard_init t from rfl,
      sbTotal_cons, hf, ih]

/-- C7: a completed tournament plays exactly C(N,2) x 3 x rounds x (2 when
swap_starts else 1) matches; projected to (context, first seat, second
seat), the played list equals the spec-side enumeration (scenario order
home of a, home of b, neutral; the home competitor seated first at home and
the lexicographically smaller id first at neutral; the swapped-seat match
appended when swap_starts); and _pairings enumerates exactly the pairs of
positions i < j of the configured order. -/
theorem claim_C7_enumeration (gameOf : String → Game) (agentOf : String → Agent)
    (clk : Nat → Int) (comps : List Competitor) (neutral : String) (rounds : Nat)
    (sw pp : Bool) (res : TournamentResult)
    (hr : 1 ≤ rounds) (hnd : (comps.map (fun c => c.id)).Nodup)
    (hok : run_tournament gameOf agentOf clk comps neutral rounds sw pp = .ok res) :
    res.matches'.length = comps.length.choose 2 * 3 * rounds * (if sw then 2 else 1) ∧
    res.matches'.map (fun m => (m.context, m.p0, m.p1)) = specSchedule comps rounds sw ∧
    (∀ a b, (a, b) ∈ _pairings comps ↔
      ∃ i j : Nat, i < j ∧ comps[i]? = some a ∧ comps[j]? = some b) := by
  unfold run_tournament at hok
  split at hok
  · exact nomatch hok
  · rename_i ms sb hrm
    have hres : res = ⟨ms, sb⟩ := (Except.ok.inj hok).symm
    have hsides : ∀ s ∈ scheduleMatches comps neutral rounds sw,
        s.p0_id ∈ sbKeys (_scoreboard_init comps) ∧
        s.p1_id ∈ sbKeys (_scoreboard_init comps) ∧ s.p0_id ≠ s.p1_id := by
      intro s hs
      obtain ⟨a1, a2, a3⟩ := sched_sides comps neutral rounds sw hnd s hs
      exact ⟨by rw [sbKeys_init]; exact a1, by rw [sbKeys_init]; exact a2, a3⟩
    obtain ⟨neu, hn1, hn2, _, _, _⟩ := runMatches_spec gameOf agentOf clk pp
      (scheduleMatches comps neutral rounds sw) (_scoreboard_init comps) [] (ms, sb)
      (by rw [sbKeys_init]; exact hnd) hsides hrm
    have hms : ms = neu := by rw [show ms = (ms, sb).1 from rfl, hn1, List.nil_append]
    have hmap : res.matches'.map (fun m => (m.context, m.p0, m.p1)) =
        specSchedule comps rounds sw := by
      rw [hres]
      show ms.map (fun m => (m.context, m.p0, m.p1)) = specSchedule comps rounds sw
      rw [hms, hn2, scheduleMatches_keys comps neutral rounds sw hnd]
    refine ⟨?_, hmap, pairings_index_iff comps⟩
    have hlen := congrArg List.length hmap
    rw [List.length_map, specSchedule_length] at hlen
    exact hlen

/-- Fixture game for tournament witnesses: every state is terminal with
winner 0, so each match ends at its first terminal check with zero turns. -/
def instantWinGame : Game where
  name := "instant"
  initial_state := .null
  legal_moves := fun _ _ => []
  apply_move := fun s _ _ => s
  terminal := fun _ => ⟨true, some 0, "win"⟩
  render := fun _ => ""

def compsW : List Competitor := [⟨"a", "g", "x"⟩, ⟨"b", "g", "y"⟩]

def resTswap : TournamentResult :=
  ⟨[⟨"home:a", "instant", "a", "b", some "a", "win", 0⟩,
    ⟨"home:a", "instant", "b", "a", some "b", "win", 0⟩,
    ⟨"home:b", "instant", "b", "a", some "b", "win", 0⟩,
    ⟨"home:b", "instant", "a", "b", some "a", "win", 0⟩,
    ⟨"neutral", "instant", "a", "b", some "a", "win", 0⟩,
    ⟨"neutral", "instant", "b", "a", some "b", "win", 0⟩],
   [("a", ⟨3, 3, 0, 9⟩), ("b", ⟨3, 3, 0, 9⟩)]⟩

/-- Witness for C7 on a two-competitor, one-round, swap_starts tournament of
the instant game. -/
theorem claim_C7_witness :
    resTswap.matches'.length = (2 : Nat).choose 2 * 3 * 1 * (if true then 2 else 1) ∧
    resTswap.matches'.map (fun m => (m.context, m.p0, m.p1)) = specSchedule compsW 1 true := by
  have hc := claim_C7_enumeration (fun _ => instantWinGame) (fun _ => firstLegalAgent)
    (fun _ => 0) compsW "n" 1 true false resTswap (by decide) (by decide) (by decide)
  exact ⟨hc.1, hc.2.1⟩

/-- C6: a drawn match adds one draw and one point to each seat; a decisive
match adds one win and three points to the winner and one loss and no
points to the loser; no other row changes.  Consequently over a completed
tournament the scoreboard satisfies the conservation laws
sum of wins plus losses plus draws = 2 x matches and
sum of points = 3 x decisive + 2 x drawn. -/
theorem claim_C6_scoring :
    (∀ (sb : Scoreboard) (p0 p1 : String), (sbKeys sb).Nodup → p0 ∈ sbKeys sb →
      p1 ∈ sbKeys sb → p0 ≠ p1 →
      (sbGet (_apply_result sb p0 p1 none) p0 =
        { sbGet sb p0 with draws := (sbGet sb p0).draws + 1,
                           points := (sbGet sb p0).points + 1 } ∧
       sbGet (_apply_result sb p0 p1 none) p1 =
        { sbGet sb p1 with draws := (sbGet sb p1).draws + 1,
                           points := (sbGet sb p1).points + 1 } ∧
       (∀ k, k ≠ p0 → k ≠ p1 → sbGet (_apply_result sb p0 p1 none) k = sbGet sb k)) ∧
      (∀ w l, (w = p0 ∨ w = p1) → l = (if w = p0 then p1 else p0) →
        sbGet (_apply_result sb p0 p1 (some w)) w =
          { sbGet sb w with wins := (sbGet sb w).wins + 1,
                            points := (sbGet sb w).points + 3 } ∧
        sbGet (_apply_result sb p0 p1 (some w)) l =
          { sbGet sb l with losses := (sbGet sb l).losses + 1 } ∧
        (∀ k, k ≠ p0 → k ≠ p1 → sbGet (_apply_result sb p0 p1 (some w)) k = sbGet sb k))) ∧
    (∀ (gameOf : String → Game) (agentOf : String → Agent) (clk : Nat → Int)
      (comps : List Competitor) (neutral : String) (rounds : Nat) (sw pp : Bool)
      (res : TournamentResult),
      (comps.map (fun c => c.id)).Nodup →
      run_tournament gameOf agentOf clk comps neutral rounds sw pp = .ok res →
      sbTotal fWLD res.scoreboard = 2 * res.matches'.length ∧
      sbTotal fPts res.scoreboard =
        3 * (res.matches'.filter (fun m => m.winner.isSome)).length +
        2 * (res.matches'.filter (fun m => m.winner.isNone)).length) := by
  constructor
  · intro sb p0 p1 hnd h0 h1 hne
    constructor
    · obtain ⟨a1, a2, a3, _⟩ := apply_result_draw sb p0 p1 hnd h0 h1 hne
      exact ⟨a1, a2, a3⟩
    · intro w l hw hl
      obtain ⟨a1, a2, a3, _⟩ := apply_result_win sb p0 p1 w l hnd h0 h1 hne hw hl
      exact ⟨a1, a2, a3⟩
  · intro gameOf agentOf clk comps neutral rounds sw pp res hnd hok
    unfold run_tournament at hok
    split at hok
    · exact nomatch hok
    · rename_i ms sb hrm
      have hres : res = ⟨ms, sb⟩ := (Except.ok.inj hok).symm
      have hsides : ∀ s ∈ scheduleMatches comps neutral rounds sw,
          s.p0_id ∈ sbKeys (_scoreboard_init comps) ∧
          s.p1_id ∈ sbKeys (_scoreboard_init comps) ∧ s.p0_id ≠ s.p1_id := by
        intro s hs
        obtain ⟨a1, a2, a3⟩ := sched_sides comps neutral rounds sw hnd s hs
        exact ⟨by rw [sbKeys_init]; exact a1, by rw [sbKeys_init]; exact a2, a3⟩
      obtain ⟨neu, hn1, _, _, hn4, hn5⟩ := runMatches_spec gameOf agentOf clk pp
        (scheduleMatches comps neutral rounds sw) (_scoreboard_init comps) [] (ms, sb)
        (by rw [sbKeys_init]; exact hnd) hsides hrm
      have hms : ms = neu := by rw [show ms = (ms, sb).1 from rfl, hn1, List.nil_append]
      rw [hres]
      show sbTotal fWLD sb = 2 * ms.length ∧
        sbTotal fPts sb = 3 * (ms.filter (fun m => m.winner.isSome)).length +
          2 * (ms.filter (fun m => m.winner.isNone)).length
      rw [hms]
      have h4 : sbTotal fWLD sb = 2 * neu.length := by
        have := hn4
        rw [sbTotal_init fWLD comps rfl] at this
        rw [show sbTotal fWLD sb = sbTotal fWLD (ms, sb).2 from rfl, this]
        omega
      have h5 : sbTotal fPts sb = 3 * (neu.filter (fun m => m.winner.isSome)).length +
          2 * (neu.filter (fun m => m.winner.isNone)).length := by
        have := hn5
        rw [sbTotal_init fPts comps rfl] at this
        rw [show sbTotal fPts sb = sbTotal fPts (ms, sb).2 from rfl, this]
        omega
      exact ⟨h4, h5⟩

def resT3 : TournamentResult :=
  ⟨[⟨"home:a", "instant", "a", "b", some "a", "win", 0⟩,
    ⟨"home:b", "instant", "b", "a", some "b", "win", 0⟩,
    ⟨"neutral", "instant", "a", "b", some "a", "win", 0⟩],
   [("a", ⟨2, 1, 0, 6⟩), ("b", ⟨1, 2, 0, 3⟩)]⟩

/-- Witness for C6 on a two-competitor, one-round tournament of the instant
game: six seat slots over three matches and nine points over three decisive
matches. -/
theorem claim_C6_witness :
    sbTotal fWLD resT3.scoreboard = 2 * resT3.matches'.length ∧
    sbTotal fPts resT3.scoreboard =
      3 * (resT3.matches'.filter (fun m => m.winner.isSome)).length +
      2 * (resT3.matches'.filter (fun m => m.winner.isNone)).length :=
  claim_C6_scoring.2 (fun _ => instantWinGame) (fun _ => firstLegalAgent) (fun _ => 0)
    compsW "n" 1 false false resT3 (by decide) (by decide)
